import Mathlib

/-!
Verification development for the ssm instance-discovery engine.

Shallow embedding of:
* the storage repository (`internal/storage`: `models.go`, the
  `InstanceRepository` in the unnamed storage file: `SaveOrUpdate`,
  `SaveOrUpdateBatch`, `FindByName`, `FindByID`, `List`, `DeleteStale`,
  and the converters `ConvertEC2Instance`, `ConvertSSMManagedInstance`),
* the discovery orchestrator (`internal/service/discovery.go`:
  `DiscoverInstances`, `discoverInstancesForProfileRegion`,
  `cleanupStaleInstances`),
* the configuration defaults (`internal/config/config.go`: `setDefaults`),
* and a transition system for the semaphore-gated fan-out of
  `DiscoverInstances`.

Timestamps are modelled as `Nat` (the code uses `time.Now()`; only order
and arithmetic on durations matter to the claims).  Database errors that
the real store may raise (disk failure, constraint violation) are modelled
by an explicit failure-injection parameter on the batch-write path, with
GORM transaction semantics: a failed transaction rolls the store back to
its pre-transaction state.
-/

namespace SSM

/-- A row of the `tags` table (`storage.Tag`): `(instance_id, key, value)`.
The surrogate primary key is immaterial to the claims and omitted. -/
structure Tag where
  instanceId : String
  key : String
  value : String
deriving DecidableEq, Repr

/-- A row of the `instances` table: the columns of `storage.Instance`.
The `Tags` association in the Go struct is not a column of this table;
tags live in the `tags` table and are attached only on `Preload`. -/
structure Row where
  instanceId : String
  name : String
  region : String
  profile : String
  accountId : String
  state : String
  platform : String
  lastSeen : Nat
  createdAt : Nat
  updatedAt : Nat
deriving DecidableEq, Repr

/-- The in-memory `storage.Instance` value: table columns plus the
`Tags` association slice (empty unless populated by a `Preload` or by a
converter building a record to save). -/
structure Instance where
  instanceId : String
  name : String
  region : String
  profile : String
  accountId : String
  state : String
  platform : String
  lastSeen : Nat
  createdAt : Nat
  updatedAt : Nat
  tags : List Tag
deriving DecidableEq, Repr

/-- A row of the `regions` table (`storage.Region`). -/
structure RegionRow where
  region : String
  enabled : Bool
deriving DecidableEq, Repr

/-- The persistent store: the `instances`, `tags` and `regions` tables.
Lists keep insertion order (ascending surrogate primary key), which is the
order GORM's `First` without an `ORDER BY` clause resolves to. -/
structure DB where
  instances : List Row
  tags : List Tag
  regions : List RegionRow
deriving DecidableEq, Repr

/-- The unique key of an instance row: `(instance_id, region, profile)`
(unique index `idx_instance_profile_region` in `models.go`). -/
def rowKey (r : Row) : String × String × String :=
  (r.instanceId, r.region, r.profile)

/-- The unique key of an in-memory instance record. -/
def instKey (i : Instance) : String × String × String :=
  (i.instanceId, i.region, i.profile)

/-- SQLite `lower()` lowercases ASCII letters only. -/
def asciiLowerChar (c : Char) : Char :=
  if 'A' ≤ c ∧ c ≤ 'Z' then Char.ofNat (c.toNat + 32) else c

/-- SQLite `lower()` on a string. -/
def sqliteLower (s : String) : String :=
  String.mk (s.data.map asciiLowerChar)

/-- The `CASE` priority expression of `FindByName`:
`CASE WHEN state = 'Online' THEN 0 WHEN lower(state) = 'running' THEN 1
ELSE 2 END` (SQLite `=` on text is case-sensitive). -/
def caseRank (state : String) : Nat :=
  if state = "Online" then 0
  else if sqliteLower state = "running" then 1
  else 2

/-- Strict lexicographic "sorts earlier" test on `(rank ASC, last_seen
DESC, updated_at DESC)` keys. -/
def tripleBefore (a b : Nat × Nat × Nat) : Bool :=
  decide (a.1 < b.1 ∨ (a.1 = b.1 ∧ (b.2.1 < a.2.1 ∨ (a.2.1 = b.2.1 ∧ b.2.2 < a.2.2))))

/-- The sort key of a row under `FindByName`'s `ORDER BY`. -/
def sortKey (r : Row) : Nat × Nat × Nat :=
  (caseRank r.state, r.lastSeen, r.updatedAt)

/-- `orderBefore a b` holds when row `a` sorts strictly before row `b`
under `ORDER BY CASE ... END ASC, last_seen DESC, updated_at DESC`. -/
def orderBefore (a b : Row) : Bool :=
  tripleBefore (sortKey a) (sortKey b)

/-- `First` under the `ORDER BY`: the earliest-sorting row of the list
(first encountered wins among rows the order does not separate). -/
def selectTop : List Row → Option Row
  | [] => none
  | r :: rs => some (rs.foldl (fun best x => if orderBefore x best then x else best) r)

/-- `DB.Where("name = ?", name).Order(orderExpr).First`: the top row among
rows whose `name` column equals the query exactly. -/
def findExact (db : DB) (name : String) : Option Row :=
  selectTop (db.instances.filter (fun r => r.name == name))

/-- `Preload("Tags")`: the tags attached to an instance row, i.e. every
`tags` row whose `instance_id` matches, in table order. -/
def tagsFor (db : DB) (iid : String) : List Tag :=
  db.tags.filter (fun t => t.instanceId == iid)

/-- Rebuild the in-memory `storage.Instance` from a fetched row with its
preloaded tags. -/
def loadWithTags (db : DB) (r : Row) : Instance :=
  { instanceId := r.instanceId, name := r.name, region := r.region
    profile := r.profile, accountId := r.accountId, state := r.state
    platform := r.platform, lastSeen := r.lastSeen, createdAt := r.createdAt
    updatedAt := r.updatedAt, tags := tagsFor db r.instanceId }

/-- `indexOfDot` (storage): index of the first `.` in `s`, or `-1`.
The Go original returns a byte index; since `.` is ASCII, the first `.`
byte is the first `.` character, a byte index is positive exactly when the
character index is, and the prefix before it is the same string, so a
character index is a faithful model. -/
def indexOfDotAux : List Char → Nat → Int
  | [], _ => -1
  | c :: cs, i => if c = '.' then (i : Int) else indexOfDotAux cs (i + 1)

/-- `indexOfDot` on a string. -/
def indexOfDot (s : String) : Int :=
  indexOfDotAux s.data 0

/-- `name[:idx]` for `idx = indexOfDot name`: the characters before the
first dot. -/
def baseName (s : String) : String :=
  String.mk (s.data.takeWhile (fun c => c ≠ '.'))

/-- `InstanceRepository.FindByName`: exact ordered lookup, then — only
when the first dot sits at a positive index — the same lookup on the
prefix before the first dot; `nil, nil` when both miss. -/
def FindByName (db : DB) (name : String) : Option Instance :=
  match findExact db name with
  | some r => some (loadWithTags db r)
  | none =>
    if indexOfDot name > 0 then
      match findExact db (baseName name) with
      | some r => some (loadWithTags db r)
      | none => none
    else none

/-- `InstanceRepository.FindByID`: `Where("instance_id = ?").First` with
`Preload("Tags")`; `First` without `ORDER BY` resolves to ascending
primary key, i.e. the first matching row in insertion order. -/
def FindByID (db : DB) (iid : String) : Option Instance :=
  match db.instances.find? (fun r => r.instanceId == iid) with
  | some r => some (loadWithTags db r)
  | none => none

/-- The row-update half of `tx.Where(key).Assign(attrs).FirstOrCreate`:
when a row with the key exists, GORM updates the assigned columns
(`name, account_id, state, platform, last_seen = now`) on that row, stamps
`updated_at = now`, and the `BeforeUpdate` hook re-stamps `last_seen`
(also `now`); `created_at` and the key columns are untouched. -/
def updateFirst (now : Nat) (i : Instance) : List Row → List Row
  | [] => []
  | r :: rs =>
    if rowKey r = instKey i then
      { r with name := i.name, accountId := i.accountId, state := i.state
               platform := i.platform, lastSeen := now, updatedAt := now } :: rs
    else r :: updateFirst now i rs

/-- The row created by `FirstOrCreate` when no row matches the key:
key columns plus the assigned attributes; GORM stamps `created_at` and
`updated_at`, and the `BeforeCreate` hook stamps `last_seen`. -/
def createRow (now : Nat) (i : Instance) : Row :=
  { instanceId := i.instanceId, name := i.name, region := i.region
    profile := i.profile, accountId := i.accountId, state := i.state
    platform := i.platform, lastSeen := now, createdAt := now, updatedAt := now }

/-- `Where(key).Assign(attrs).FirstOrCreate`: update the existing row
with the key, or append a new one. -/
def upsertRow (now : Nat) (i : Instance) (rows : List Row) : List Row :=
  if rows.any (fun r => decide (rowKey r = instKey i)) then updateFirst now i rows
  else rows ++ [createRow now i]

/-- The tag half of one record's upsert: when the record carries one or
more tags, delete every `tags` row with this `instance_id` and insert the
record's tags with `InstanceID` set to it; when it carries zero tags, the
table is untouched. -/
def replaceTags (i : Instance) (tags : List Tag) : List Tag :=
  if i.tags.isEmpty then tags
  else (tags.filter (fun t => !(t.instanceId == i.instanceId)))
        ++ i.tags.map (fun t => { t with instanceId := i.instanceId })

/-- One record's work inside the transaction body shared by
`SaveOrUpdate` and `SaveOrUpdateBatch`: row upsert then tag replacement. -/
def saveRecord (now : Nat) (i : Instance) (db : DB) : DB :=
  { db with instances := upsertRow now i db.instances
            tags := replaceTags i db.tags }

/-- `InstanceRepository.SaveOrUpdate`: one record in its own transaction,
with `time.Now()` taken inside it. -/
def SaveOrUpdate (now : Nat) (i : Instance) (db : DB) : DB :=
  saveRecord now i db

/-- The transaction body of `SaveOrUpdateBatch`: records processed in
order with one shared `now`. -/
def applyBatch (now : Nat) (batch : List Instance) (db : DB) : DB :=
  batch.foldl (fun d i => saveRecord now i d) db

/-- `InstanceRepository.SaveOrUpdateBatch` with store-failure injection:
`failAt = some k` (with `k` short of the batch length) models the store
write for the k-th record failing, upon which `DB.Transaction` rolls the
whole transaction back (the store is returned unchanged) and the error is
propagated; empty input returns `nil` before opening a transaction. -/
def SaveOrUpdateBatchF (failAt : Option Nat) (now : Nat) (batch : List Instance)
    (db : DB) : DB × Except String Unit :=
  if batch.isEmpty then (db, Except.ok ())
  else
    match failAt with
    | some k =>
      if k < batch.length then (db, Except.error "failed to save instance")
      else (applyBatch now batch db, Except.ok ())
    | none => (applyBatch now batch db, Except.ok ())

/-- `SaveOrUpdateBatch` on the failure-free path. -/
def SaveOrUpdateBatch (now : Nat) (batch : List Instance) (db : DB) : DB :=
  (SaveOrUpdateBatchF none now batch db).1

/-- `storage.InstanceFilter`. -/
structure InstanceFilter where
  profile : Option String
  region : Option String
  name : Option String
  state : Option String
deriving DecidableEq, Repr

/-- Substring containment on character lists (`LIKE '%pat%'` structure). -/
def charsContain (pat : List Char) : List Char → Bool
  | [] => pat.isEmpty
  | c :: t => pat.isPrefixOf (c :: t) || charsContain pat t

/-- SQLite `LIKE` is case-insensitive over ASCII: substring containment
after ASCII lowering of both sides. -/
def likeContains (hay pat : String) : Bool :=
  charsContain (sqliteLower pat).data (sqliteLower hay).data

/-- The WHERE clauses of `InstanceRepository.List`: every supplied filter
field must match (`name` via `LIKE '%name%'`, the others by equality). -/
def listMatches (f : Option InstanceFilter) (r : Row) : Bool :=
  match f with
  | none => true
  | some fl =>
    (match fl.profile with | none => true | some p => r.profile == p) &&
    (match fl.region with | none => true | some rg => r.region == rg) &&
    (match fl.name with | none => true | some n => likeContains r.name n) &&
    (match fl.state with | none => true | some st => r.state == st)

/-- `ORDER BY profile ASC, region ASC, name ASC` (SQLite binary collation;
code-point order coincides with byte order under UTF-8). -/
def listLE (a b : Row) : Bool :=
  if a.profile ≠ b.profile then decide (a.profile < b.profile)
  else if a.region ≠ b.region then decide (a.region < b.region)
  else decide (a.name ≤ b.name)

/-- Insertion into a `listLE`-sorted list. -/
def insertSorted (r : Row) : List Row → List Row
  | [] => [r]
  | x :: xs => if listLE r x then r :: x :: xs else x :: insertSorted r xs

/-- Insertion sort by `listLE`. -/
def sortRows : List Row → List Row
  | [] => []
  | x :: xs => insertSorted x (sortRows xs)

/-- A fetched row as a `storage.Instance` value with no association
loaded: GORM leaves the `Tags` slice nil. -/
def rowNoTags (r : Row) : Instance :=
  { instanceId := r.instanceId, name := r.name, region := r.region
    profile := r.profile, accountId := r.accountId, state := r.state
    platform := r.platform, lastSeen := r.lastSeen, createdAt := r.createdAt
    updatedAt := r.updatedAt, tags := [] }

/-- `InstanceRepository.List` (named `ListInstances` here because `List`
is taken in Lean): filter, order for stable display, no `Preload`. -/
def ListInstances (f : Option InstanceFilter) (db : DB) : List Instance :=
  (sortRows (db.instances.filter (listMatches f))).map rowNoTags

/-- `InstanceRepository.DeleteStale`: delete rows with
`last_seen < now - olderThan`; the middle component is
`result.RowsAffected`, which is only logged (at info level when positive);
the caller-visible return is the last component, `nil` on success — in
particular zero matches is not an error. -/
def DeleteStale (now ttl : Nat) (db : DB) : DB × Nat × Except String Unit :=
  let kept := db.instances.filter (fun r => !(decide (r.lastSeen < now - ttl)))
  ({ db with instances := kept }, db.instances.length - kept.length, Except.ok ())

/-- A tag of the EC2 native shape (`ec2 types.Tag`): nullable key/value. -/
structure EC2Tag where
  key : Option String
  value : Option String
deriving DecidableEq, Repr

/-- The EC2 native instance shape, the fields `ConvertEC2Instance`
reads: id, lifecycle state name, tags, platform details. -/
structure EC2Instance where
  instanceId : String
  state : String
  tags : Option (List EC2Tag)
  platformDetails : Option String
deriving DecidableEq, Repr

/-- The `Name` extraction loop of `ConvertEC2Instance`: the value of the
last tag whose key is `Name` (both key and value non-nil), else empty. -/
def ec2Name (tags : List EC2Tag) : String :=
  tags.foldl
    (fun acc t =>
      match t.key, t.value with
      | some k, some v => if k = "Name" then v else acc
      | _, _ => acc) ""

/-- The tag-collection loop of `ConvertEC2Instance`: every tag with both
key and value non-nil, in order; `InstanceID` is left zero (the save path
stamps it). -/
def ec2Tags (tags : List EC2Tag) : List Tag :=
  tags.foldl
    (fun acc t =>
      match t.key, t.value with
      | some k, some v => acc ++ [{ instanceId := "", key := k, value := v }]
      | _, _ => acc) []

/-- `storage.ConvertEC2Instance`. -/
def ConvertEC2Instance (e : EC2Instance) (region profile accountId : String) : Instance :=
  { instanceId := e.instanceId
    name := match e.tags with | some ts => ec2Name ts | none => ""
    region := region, profile := profile, accountId := accountId
    state := e.state
    platform := e.platformDetails.getD ""
    lastSeen := 0, createdAt := 0, updatedAt := 0
    tags := match e.tags with | some ts => ec2Tags ts | none => [] }

/-- The SSM native shape (`ssm types.InstanceInformation`), the fields
`ConvertSSMManagedInstance` reads. -/
structure SSMInstanceInformation where
  instanceId : Option String
  name : Option String
  computerName : Option String
  pingStatus : String
  platformName : Option String
deriving DecidableEq, Repr

/-- `storage.ConvertSSMManagedInstance`; its caller has already checked
`InstanceId` non-nil, so `getD` never fires on the discovery path.  SSM
`DescribeInstanceInformation` reports no tags, so the record carries
zero tags by construction. -/
def ConvertSSMManagedInstance (info : SSMInstanceInformation)
    (region profile accountId : String) : Instance :=
  { instanceId := info.instanceId.getD ""
    name :=
      match info.name with
      | some n => if n = "" then info.computerName.getD "" else n
      | none => info.computerName.getD ""
    region := region, profile := profile, accountId := accountId
    state := info.pingStatus
    platform := info.platformName.getD ""
    lastSeen := 0, createdAt := 0, updatedAt := 0
    tags := [] }

/-- The remote-side and store-failure environment of one discovery unit:
`GetClient` outcome and account id, the two paginated fetch results, and
store-failure injection points for the two batch transactions. -/
structure UnitEnv where
  clientOk : Bool
  accountId : String
  ec2Fetch : Except String (List EC2Instance)
  ec2SaveFailAt : Option Nat
  ssmFetch : Except String (List SSMInstanceInformation)
  ssmSaveFailAt : Option Nat

/-- The `mi-` filter of `discoverInstancesForProfileRegion`: keep an SSM
entry only when its id is non-nil, at least 3 characters long, and its
first three characters are `mi-`. -/
def ssmFilter (mis : List SSMInstanceInformation) : List SSMInstanceInformation :=
  mis.filter
    (fun mi =>
      match mi.instanceId with
      | none => false
      | some iid => decide (3 ≤ iid.length) && (iid.take 3 == "mi-"))

/-- `DiscoveryService.discoverInstancesForProfileRegion`: get the client,
fetch and convert EC2 instances, write them as one batch (a failed write
is only logged as a warning — the unit continues), fetch SSM managed
instances (a fetch failure is fatal for the unit), keep only `mi-`
entries, and write those as a second batch (again, a failed write is only
logged). -/
def discoverUnit (env : UnitEnv) (now : Nat) (profile region : String) (db : DB) :
    DB × Except String Unit :=
  if !env.clientOk then (db, Except.error "failed to get AWS client")
  else
    match env.ec2Fetch with
    | Except.error e => (db, Except.error ("failed to describe instances: " ++ e))
    | Except.ok insts =>
      let batch := insts.map (fun e => ConvertEC2Instance e region profile env.accountId)
      let db1 := (SaveOrUpdateBatchF env.ec2SaveFailAt now batch db).1
      match env.ssmFetch with
      | Except.error e => (db1, Except.error ("failed to list SSM managed instances: " ++ e))
      | Except.ok mis =>
        let ssmBatch :=
          (ssmFilter mis).map (fun mi => ConvertSSMManagedInstance mi region profile env.accountId)
        if ssmBatch.isEmpty then (db1, Except.ok ())
        else ((SaveOrUpdateBatchF env.ssmSaveFailAt now ssmBatch db1).1, Except.ok ())

/-- The converted records a unit attempts to write: the EC2 batch
followed by the `mi-`-filtered SSM batch. -/
def unitWrites (env : UnitEnv) (profile region : String) : List Instance :=
  (match env.ec2Fetch with
   | Except.ok insts => insts.map (fun e => ConvertEC2Instance e region profile env.accountId)
   | Except.error _ => [])
  ++
  (match env.ssmFetch with
   | Except.ok mis =>
     (ssmFilter mis).map (fun mi => ConvertSSMManagedInstance mi region profile env.accountId)
   | Except.error _ => [])

/-- `RegionRepository.GetEnabledRegions`: names of enabled region rows. -/
def GetEnabledRegions (db : DB) : List String :=
  (db.regions.filter (fun r => r.enabled)).map (fun r => r.region)

/-- The scheduled (profile, region) units: the cartesian product in loop
order. -/
def unitList (profiles regions : List String) : List (String × String) :=
  (profiles.map (fun p => regions.map (fun rg => (p, rg)))).flatten

/-- The aggregate error of `DiscoverInstances`:
`discovery completed with %d errors`. -/
structure AggregateError where
  failedCount : Nat
deriving DecidableEq, Repr

/-- `DiscoveryService.DiscoverInstances`: substitute enabled regions when
none are given, run every (profile, region) unit — each failed unit posts
exactly one error to the channel — then run stale cleanup once (its error
is only logged), and return the aggregate error exactly when the error
count is positive.  Units interleave only at the store's transaction
boundary, so the store evolution is modelled as the fold over units. -/
def DiscoverInstances (envOf : String → String → UnitEnv) (now ttl : Nat)
    (profiles regions : List String) (db : DB) : DB × Except AggregateError Unit :=
  let effRegions := if regions.isEmpty then GetEnabledRegions db else regions
  let folded :=
    (unitList profiles effRegions).foldl
      (fun (acc : DB × Nat) u =>
        let res := discoverUnit (envOf u.1 u.2) now u.1 u.2 acc.1
        (res.1, acc.2 + (match res.2 with | Except.ok _ => 0 | Except.error _ => 1)))
      (db, 0)
  let db2 := (DeleteStale now ttl folded.1).1
  (db2, if folded.2 > 0 then Except.error ⟨folded.2⟩ else Except.ok ())

/-- `setDefaults` (config.go): `aws.max_concurrent_sessions` defaults
to 5; `NewDiscoveryService` builds its weighted semaphore with this
weight. -/
def defaultMaxConcurrentSessions : Nat := 5

/-- `setDefaults` (config.go): `discovery.ttl` defaults to 24h. -/
def defaultDiscoveryTTL : String := "24h"

/-- Status of one goroutine of `DiscoverInstances`: not yet spawned;
blocked in `semaphore.Acquire`; holding a slot and discovering; finished
and released; or failed (acquire error on cancellation, or a unit
error posted to the channel). -/
inductive UnitStatus where
  | pending
  | waiting
  | running
  | done
  | failed
deriving DecidableEq, Repr

/-- The fan-out scheduler state: one status per scheduled unit. -/
structure SchedState where
  units : List UnitStatus
deriving DecidableEq, Repr

/-- Units currently holding a semaphore slot. -/
def runningCount (s : SchedState) : Nat :=
  s.units.countP (fun u => u == UnitStatus.running)

/-- All units spawned but none started: the state right after the
`go func` loop. -/
def initState (n : Nat) : SchedState :=
  ⟨List.replicate n UnitStatus.pending⟩

/-- One scheduler transition of the semaphore-gated fan-out: `acquire`
admits a waiting unit only when fewer than `limit` slots are held
(`semaphore.NewWeighted(limit)` with weight-1 acquisitions); `cancelWait`
is `Acquire` observing context cancellation — the blocked unit fails with
the acquire error, posted to the error channel. -/
inductive SchedStep (limit : Nat) : SchedState → SchedState → Prop where
  | start (s : SchedState) (i : Nat)
      (h : s.units.get? i = some UnitStatus.pending) :
      SchedStep limit s ⟨s.units.set i UnitStatus.waiting⟩
  | acquire (s : SchedState) (i : Nat)
      (h : s.units.get? i = some UnitStatus.waiting)
      (hroom : runningCount s < limit) :
      SchedStep limit s ⟨s.units.set i UnitStatus.running⟩
  | finishOk (s : SchedState) (i : Nat)
      (h : s.units.get? i = some UnitStatus.running) :
      SchedStep limit s ⟨s.units.set i UnitStatus.done⟩
  | finishFail (s : SchedState) (i : Nat)
      (h : s.units.get? i = some UnitStatus.running) :
      SchedStep limit s ⟨s.units.set i UnitStatus.failed⟩
  | cancelWait (s : SchedState) (i : Nat)
      (h : s.units.get? i = some UnitStatus.waiting) :
      SchedStep limit s ⟨s.units.set i UnitStatus.failed⟩

/-- States reachable from the post-spawn state by scheduler steps. -/
def SchedReachable (limit n : Nat) (s : SchedState) : Prop :=
  Relation.ReflTransGen (SchedStep limit) (initState n) s

theorem tripleBefore_irrefl (a : Nat × Nat × Nat) : tripleBefore a a = false := by
  simp [tripleBefore]

theorem tripleBefore_asymm {a b : Nat × Nat × Nat} (h : tripleBefore a b = true) :
    tripleBefore b a = false := by
  simp only [tripleBefore, decide_eq_true_eq, decide_eq_false_iff_not] at h ⊢
  omega

theorem tripleBefore_notrans {a b c : Nat × Nat × Nat} (hab : tripleBefore a b = false)
    (hbc : tripleBefore b c = false) : tripleBefore a c = false := by
  simp only [tripleBefore, decide_eq_false_iff_not] at hab hbc ⊢
  omega

theorem orderBefore_irrefl (a : Row) : orderBefore a a = false :=
  tripleBefore_irrefl _

theorem orderBefore_asymm {a b : Row} (h : orderBefore a b = true) :
    orderBefore b a = false :=
  tripleBefore_asymm h

theorem orderBefore_notrans {a b c : Row} (hab : orderBefore a b = false)
    (hbc : orderBefore b c = false) : orderBefore a c = false :=
  tripleBefore_notrans hab hbc

/-- The fold used by `selectTop` keeps either its seed or a list element. -/
theorem foldl_pick_mem (l : List Row) (b : Row) :
    l.foldl (fun best x => if orderBefore x best then x else best) b = b ∨
    l.foldl (fun best x => if orderBefore x best then x else best) b ∈ l := by
  induction l generalizing b with
  | nil => left; rfl
  | cons y ys ih =>
    simp only [List.foldl_cons]
    rcases ih (if orderBefore y b then y else b) with h | h
    · rw [h]
      by_cases hc : orderBefore y b = true
      · right; simp [hc]
      · left; simp at hc; simp [hc]
    · right; exact List.mem_cons_of_mem _ h

/-- No seed and no list element sorts strictly before the fold's result. -/
theorem foldl_pick_min (l : List Row) (b : Row) :
    ∀ x, (x = b ∨ x ∈ l) →
      orderBefore x (l.foldl (fun best y => if orderBefore y best then y else best) b) = false := by
  induction l generalizing b with
  | nil =>
    intro x hx
    rcases hx with rfl | hx
    · exact orderBefore_irrefl x
    · cases hx
  | cons y ys ih =>
    intro x hx
    simp only [List.foldl_cons]
    have hb : orderBefore b (if orderBefore y b then y else b) = false := by
      by_cases hc : orderBefore y b = true
      · simp [hc, orderBefore_asymm hc]
      · simp at hc; simp [hc, orderBefore_irrefl]
    have hy : orderBefore y (if orderBefore y b then y else b) = false := by
      by_cases hc : orderBefore y b = true
      · simp [hc, orderBefore_irrefl]
      · simp at hc; simp [hc]
    have hmin := ih (if orderBefore y b then y else b)
    have hseed : orderBefore (if orderBefore y b then y else b)
        (ys.foldl (fun best z => if orderBefore z best then z else best)
          (if orderBefore y b then y else b)) = false :=
      hmin _ (Or.inl rfl)
    rcases hx with rfl | hx
    · exact orderBefore_notrans hb hseed
    · rcases List.mem_cons.mp hx with rfl | hx
      · exact orderBefore_notrans hy hseed
      · exact hmin _ (Or.inr hx)

theorem selectTop_eq_none {l : List Row} : selectTop l = none ↔ l = [] := by
  cases l <;> simp [selectTop]

theorem selectTop_mem {l : List Row} {r : Row} (h : selectTop l = some r) : r ∈ l := by
  cases l with
  | nil => cases h
  | cons x xs =>
    simp only [selectTop, Option.some.injEq] at h
    rcases foldl_pick_mem xs x with hm | hm
    · rw [← h, hm]; exact List.mem_cons_self _ _
    · rw [← h]; exact List.mem_cons_of_mem _ hm

theorem selectTop_min {l : List Row} {r : Row} (h : selectTop l = some r) :
    ∀ x ∈ l, orderBefore x r = false := by
  cases l with
  | nil => cases h
  | cons y ys =>
    intro x hx
    simp only [selectTop, Option.some.injEq] at h
    rw [← h]
    exact foldl_pick_min ys y x (List.mem_cons.mp hx)

/-- C1: for every store and every queried name, the exact-name stage of
`FindByName` returns none exactly when no row's name equals the query;
otherwise it returns an exactly-matching row that no other exactly-
matching row sorts strictly before, where the sort places lower
`caseRank` first, then later `last_seen`, then later `updated_at`, and
`caseRank` is 0 exactly on state `Online` (the SSM online ping status),
1 exactly on a state that lowercases to `running` (and is not `Online`),
and 2 otherwise. -/
theorem C1_exact_lookup_priority (db : DB) (name : String) :
    (findExact db name = none ↔ ∀ r ∈ db.instances, r.name ≠ name) ∧
    (∀ r, findExact db name = some r →
      r ∈ db.instances ∧ r.name = name ∧
      ∀ s ∈ db.instances, s.name = name → orderBefore s r = false) ∧
    (∀ a b : Row, orderBefore a b = true ↔
      (caseRank a.state < caseRank b.state ∨
        (caseRank a.state = caseRank b.state ∧
          (b.lastSeen < a.lastSeen ∨
            (a.lastSeen = b.lastSeen ∧ b.updatedAt < a.updatedAt))))) ∧
    (∀ st : String,
      (caseRank st = 0 ↔ st = "Online") ∧
      (caseRank st = 1 ↔ st ≠ "Online" ∧ sqliteLower st = "running") ∧
      (caseRank st = 2 ↔ st ≠ "Online" ∧ sqliteLower st ≠ "running")) := by
  refine ⟨?_, ?_, ?_, ?_⟩
  · unfold findExact
    rw [selectTop_eq_none, List.filter_eq_nil_iff]
    simp
  · intro r hr
    have hmem := selectTop_mem hr
    have hmin := selectTop_min hr
    have h1 := List.mem_filter.mp hmem
    refine ⟨h1.1, by simpa using h1.2, ?_⟩
    intro s hs hname
    exact hmin s (List.mem_filter.mpr ⟨hs, by simpa using hname⟩)
  · intro a b
    simp only [orderBefore, tripleBefore, sortKey, decide_eq_true_eq]
  · intro st
    unfold caseRank
    by_cases h0 : st = "Online" <;> by_cases h1 : sqliteLower st = "running" <;>
      simp [h0, h1]

/-- Rows used by concrete witnesses and counterexamples. -/
def mkExRow (iid nm st : String) (ls ua : Nat) : Row :=
  { instanceId := iid, name := nm, region := "eu-west-1", profile := "dev"
    accountId := "123", state := st, platform := "Linux/UNIX"
    lastSeen := ls, createdAt := 0, updatedAt := ua }

def exRowLost : Row := mkExRow "i-a" "web" "ConnectionLost" 99 99

def exRowRunning : Row := mkExRow "i-b" "web" "running" 98 98

def exRowOnline : Row := mkExRow "mi-c" "web" "Online" 1 1

def exDB1 : DB := ⟨[exRowLost, exRowRunning, exRowOnline], [], []⟩

/-- Witness for C1 at a concrete store: among three same-named rows with
states ConnectionLost / running / Online, the returned row is the Online
one and neither other row sorts before it. -/
theorem C1_exact_lookup_priority_witness :
    exRowOnline ∈ exDB1.instances ∧ exRowOnline.name = "web" ∧
    orderBefore exRowLost exRowOnline = false ∧
    orderBefore exRowRunning exRowOnline = false := by
  have h := (C1_exact_lookup_priority exDB1 "web").2.1 exRowOnline (by decide)
  exact ⟨h.1, h.2.1,
    h.2.2 exRowLost (by decide) (by decide),
    h.2.2 exRowRunning (by decide) (by decide)⟩

theorem indexOfDotAux_lower (cs : List Char) (i : Nat) :
    indexOfDotAux cs i = -1 ∨ (i : Int) ≤ indexOfDotAux cs i := by
  induction cs generalizing i with
  | nil => left; rfl
  | cons c rest ih =>
    unfold indexOfDotAux
    by_cases hc : c = '.'
    · right; simp [hc]
    · simp only [hc, if_false]
      rcases ih (i + 1) with h | h
      · left; exact h
      · right; omega

theorem indexOfDotAux_eq_neg_one (cs : List Char) (i : Nat) :
    indexOfDotAux cs i = -1 ↔ '.' ∉ cs := by
  induction cs generalizing i with
  | nil => simp [indexOfDotAux]
  | cons c rest ih =>
    unfold indexOfDotAux
    by_cases hc : c = '.'
    · simp [hc]
    · simp only [hc, if_false, List.mem_cons]
      rw [ih (i + 1)]
      constructor
      · intro h hmem
        rcases hmem with h2 | h2
        · exact hc h2.symm
        · exact h h2
      · intro h h2
        exact h (Or.inr h2)

/-- `indexOfDot s > 0` exactly when `s` contains a dot and does not start
with one. -/
theorem indexOfDot_pos_iff (s : String) :
    indexOfDot s > 0 ↔ '.' ∈ s.data ∧ s.data.head? ≠ some '.' := by
  unfold indexOfDot
  cases hd : s.data with
  | nil => simp [indexOfDotAux]
  | cons c rest =>
    unfold indexOfDotAux
    by_cases hc : c = '.'
    · simp [hc]
    · simp only [hc, if_false, List.mem_cons, List.head?_cons]
      rw [Nat.zero_add]
      constructor
      · intro h
        have hne : indexOfDotAux rest 1 ≠ -1 := by omega
        have hmem : '.' ∈ rest := by
          by_contra hm
          exact hne ((indexOfDotAux_eq_neg_one rest 1).mpr hm)
        refine ⟨Or.inr hmem, ?_⟩
        intro hcon
        exact hc (Option.some_inj.mp hcon)
      · rintro ⟨hmem, -⟩
        rcases hmem with h2 | h2
        · exact absurd h2.symm hc
        · have hne2 : indexOfDotAux rest 1 ≠ -1 := by
            intro hcon
            exact ((indexOfDotAux_eq_neg_one rest 1).mp hcon) h2
          rcases indexOfDotAux_lower rest 1 with h3 | h3
          · exact absurd h3 hne2
          · omega

/-- Counterexample to C6 as stated: the store holds one row whose name is
the empty string; the query `.x` contains a separator, and the lookup on
the substring before the first separator (the empty string) would match
that row, yet `FindByName` returns none — the fallback is skipped because
the first dot sits at index 0, not at a positive index. -/
theorem C6_counterexample :
    FindByName ⟨[mkExRow "i-e" "" "running" 5 5], [], []⟩ ".x" = none ∧
    '.' ∈ (".x").data ∧
    findExact ⟨[mkExRow "i-e" "" "running" 5 5], [], []⟩ (baseName ".x") =
      some (mkExRow "i-e" "" "running" 5 5) := by
  refine ⟨by decide, by decide, by decide⟩

/-- C6 (amended): when the exact lookup misses, the fallback lookup on
the substring before the first dot runs only when the first dot sits at a
positive index — i.e. the name contains a dot and does not start with
one; with no dot, a leading dot, or a fallback miss, the result is an
absent value, not an error. -/
theorem C6_fallback_amended (db : DB) (name : String)
    (hmiss : findExact db name = none) :
    FindByName db name =
      (if '.' ∈ name.data ∧ name.data.head? ≠ some '.' then
        (findExact db (baseName name)).map (loadWithTags db)
      else none) := by
  unfold FindByName
  rw [hmiss]
  by_cases hdot : indexOfDot name > 0
  · have hiff := (indexOfDot_pos_iff name).mp hdot
    rw [if_pos hdot, if_pos hiff]
    cases h : findExact db (baseName name) <;> simp [h]
  · have hiff : ¬('.' ∈ name.data ∧ name.data.head? ≠ some '.') := by
      intro hc; exact hdot ((indexOfDot_pos_iff name).mpr hc)
    rw [if_neg hdot, if_neg hiff]

/-- Witness for the amended C6: querying a fully-qualified name whose
exact form is not cached resolves through the base-name fallback. -/
theorem C6_fallback_amended_witness :
    FindByName exDB1 "web.internal.example" =
      (if '.' ∈ ("web.internal.example").data ∧
          ("web.internal.example").data.head? ≠ some '.' then
        (findExact exDB1 (baseName "web.internal.example")).map (loadWithTags exDB1)
      else none) :=
  C6_fallback_amended exDB1 "web.internal.example" (by decide)

/-- C10: `List` returns every matching record with an empty (unloaded)
tag slice, while `FindByName` and `FindByID` return the matched record
with its stored tags attached. -/
theorem C10_list_omits_tags (f : Option InstanceFilter) (db : DB) :
    (∀ i ∈ ListInstances f db, i.tags = []) ∧
    (∀ name i, FindByName db name = some i → i.tags = tagsFor db i.instanceId) ∧
    (∀ iid i, FindByID db iid = some i → i.tags = tagsFor db i.instanceId) := by
  refine ⟨?_, ?_, ?_⟩
  · intro i hi
    rcases List.mem_map.mp hi with ⟨r, -, rfl⟩
    rfl
  · intro name i hi
    unfold FindByName at hi
    cases h1 : findExact db name with
    | some r => rw [h1] at hi; cases hi; rfl
    | none =>
      rw [h1] at hi
      by_cases hd : indexOfDot name > 0
      · rw [if_pos hd] at hi
        cases h2 : findExact db (baseName name) with
        | some r => rw [h2] at hi; cases hi; rfl
        | none => rw [h2] at hi; cases hi
      · rw [if_neg hd] at hi; cases hi
  · intro iid i hi
    unfold FindByID at hi
    cases h1 : db.instances.find? (fun r => r.instanceId == iid) with
    | some r => rw [h1] at hi; cases hi; rfl
    | none => rw [h1] at hi; cases hi

/-- Witness for C10: with a stored tag present, `List` returns the record
with no tags while `FindByName` attaches the stored tag. -/
theorem C10_list_omits_tags_witness :
    (∀ i ∈ ListInstances none ⟨[exRowOnline], [⟨"mi-c", "env", "prod"⟩], []⟩, i.tags = []) ∧
    (∀ i, FindByName ⟨[exRowOnline], [⟨"mi-c", "env", "prod"⟩], []⟩ "web" = some i →
      i.tags = tagsFor ⟨[exRowOnline], [⟨"mi-c", "env", "prod"⟩], []⟩ i.instanceId) := by
  have h := C10_list_omits_tags none ⟨[exRowOnline], [⟨"mi-c", "env", "prod"⟩], []⟩
  exact ⟨h.1, fun i hi => h.2.1 "web" i hi⟩

/-- Counterexample to C5 as stated: the caller-visible return of
`DeleteStale` is its error value alone; at two stores where the deleted
counts differ (1 versus 2 rows older than `now - ttl`), the returned
value is identical, so the operation does not return the deleted count
(the count is only logged). -/
theorem C5_counterexample :
    (DeleteStale 100 10 ⟨[mkExRow "i-a" "a" "s" 50 0, mkExRow "i-b" "b" "s" 95 0], [], []⟩).2.1 = 1 ∧
    (DeleteStale 100 10 ⟨[mkExRow "i-a" "a" "s" 50 0, mkExRow "i-b" "b" "s" 60 0], [], []⟩).2.1 = 2 ∧
    (DeleteStale 100 10 ⟨[mkExRow "i-a" "a" "s" 50 0, mkExRow "i-b" "b" "s" 95 0], [], []⟩).2.2 =
      (DeleteStale 100 10 ⟨[mkExRow "i-a" "a" "s" 50 0, mkExRow "i-b" "b" "s" 60 0], [], []⟩).2.2 := by
  refine ⟨by decide, by decide, rfl⟩

/-- C5 (amended): `DeleteStale` keeps exactly the rows whose `last_seen`
is not older than `now - ttl` (a row is retained iff it was stored and is
within the window), the logged affected-row count is the number of stale
rows, and the caller-visible return is success — also on zero matches. -/
theorem C5_deleteStale_amended (now ttl : Nat) (db : DB) :
    (∀ r : Row, r ∈ (DeleteStale now ttl db).1.instances ↔
      r ∈ db.instances ∧ ¬(r.lastSeen < now - ttl)) ∧
    (DeleteStale now ttl db).2.1 =
      (db.instances.countP (fun r => decide (r.lastSeen < now - ttl))) ∧
    (DeleteStale now ttl db).2.2 = Except.ok () := by
  refine ⟨?_, ?_, rfl⟩
  · intro r
    simp [DeleteStale, List.mem_filter]
  · show db.instances.length -
      (db.instances.filter (fun r => !(decide (r.lastSeen < now - ttl)))).length = _
    induction db.instances with
    | nil => rfl
    | cons r rs ih =>
      have hle := List.length_filter_le (fun q => !(decide (q.lastSeen < now - ttl))) rs
      by_cases h : r.lastSeen < now - ttl
      · rw [List.filter_cons_of_neg (by simp [h]), List.countP_cons_of_pos _ _ (by simp [h]),
          List.length_cons]
        omega
      · rw [List.filter_cons_of_pos (by simp [h]), List.countP_cons_of_neg _ _ (by simp [h]),
          List.length_cons, List.length_cons]
        omega

theorem saveOrUpdateBatch_singleton (now : Nat) (i : Instance) (db : DB) :
    SaveOrUpdateBatch now [i] db = SaveOrUpdate now i db := rfl

/-- The filtered-out part contributes nothing to the saved instance's
tag view. -/
theorem filter_not_id_then_id (iid : String) (ts : List Tag) :
    (ts.filter (fun t => !(t.instanceId == iid))).filter
      (fun t => t.instanceId == iid) = [] := by
  induction ts with
  | nil => rfl
  | cons t rest ih =>
    by_cases h : t.instanceId == iid
    · simp [List.filter_cons, h, ih]
    · simp only [Bool.not_eq_true] at h
      simp [List.filter_cons, h, ih]

/-- C2: upserting a record carrying zero tags (through `SaveOrUpdate` or
a `SaveOrUpdateBatch` of it) leaves the tags table unchanged; upserting a
record carrying one or more tags makes the instance's stored tag set
exactly the new tags (stamped with its `instance_id`) and leaves every
other instance's tags unchanged. -/
theorem C2_tag_preservation (now : Nat) (i : Instance) (db : DB) :
    (i.tags = [] →
      (SaveOrUpdate now i db).tags = db.tags ∧
      (SaveOrUpdateBatch now [i] db).tags = db.tags) ∧
    (i.tags ≠ [] →
      tagsFor (SaveOrUpdate now i db) i.instanceId =
        i.tags.map (fun t => { t with instanceId := i.instanceId }) ∧
      (∀ iid, iid ≠ i.instanceId →
        tagsFor (SaveOrUpdate now i db) iid = tagsFor db iid) ∧
      (SaveOrUpdateBatch now [i] db).tags = (SaveOrUpdate now i db).tags) := by
  constructor
  · intro h
    have : (SaveOrUpdate now i db).tags = db.tags := by
      simp [SaveOrUpdate, saveRecord, replaceTags, h]
    exact ⟨this, by rw [saveOrUpdateBatch_singleton]; exact this⟩
  · intro h
    have hne : i.tags.isEmpty = false := by
      cases ht : i.tags with
      | nil => exact absurd ht h
      | cons a l => rfl
    refine ⟨?_, ?_, by rw [saveOrUpdateBatch_singleton]⟩
    · show ((replaceTags i db.tags).filter (fun t => t.instanceId == i.instanceId)) = _
      unfold replaceTags
      rw [hne]
      simp only [Bool.false_eq_true, if_false, List.filter_append,
        filter_not_id_then_id]
      rw [List.nil_append, List.filter_eq_self.mpr]
      intro a ha
      rcases List.mem_map.mp ha with ⟨t, -, rfl⟩
      simp
    · intro iid hiid
      show ((replaceTags i db.tags).filter (fun t => t.instanceId == iid)) = _
      unfold replaceTags
      rw [hne]
      simp only [Bool.false_eq_true, if_false, List.filter_append]
      have h2 : (i.tags.map (fun t => { t with instanceId := i.instanceId })).filter
          (fun t => t.instanceId == iid) = [] := by
        rw [List.filter_eq_nil_iff]
        intro a ha
        rcases List.mem_map.mp ha with ⟨t, -, rfl⟩
        simp [hiid.symm]
      rw [h2, List.append_nil]
      show (db.tags.filter _).filter _ = db.tags.filter _
      induction db.tags with
      | nil => rfl
      | cons t rest ih =>
        by_cases ht : t.instanceId == iid
        · have hti : t.instanceId = iid := by simpa using ht
          have htne : (t.instanceId == i.instanceId) = false := by
            simp [hti, hiid]
          simp [List.filter_cons, ht, htne, ih]
        · by_cases ht2 : t.instanceId == i.instanceId
          · simp [List.filter_cons, ht, ht2, ih]
          · simp [List.filter_cons, ht, ht2, ih]

def exInstEmptyTags : Instance :=
  { instanceId := "i-a", name := "web", region := "eu-west-1", profile := "dev"
    accountId := "123", state := "Online", platform := "Linux"
    lastSeen := 0, createdAt := 0, updatedAt := 0, tags := [] }

def exInstNewTags : Instance :=
  { exInstEmptyTags with tags := [⟨"", "env", "prod"⟩] }

def exDB2 : DB := ⟨[exRowLost], [⟨"i-a", "team", "infra"⟩], []⟩

/-- Witness for C2 at a concrete store: a zero-tag upsert keeps the
stored tag, a one-tag upsert replaces the instance's tag view with
exactly the new tag. -/
theorem C2_tag_preservation_witness :
    (SaveOrUpdate 10 exInstEmptyTags exDB2).tags = exDB2.tags ∧
    tagsFor (SaveOrUpdate 10 exInstNewTags exDB2) exInstNewTags.instanceId =
      [⟨"i-a", "env", "prod"⟩] := by
  refine ⟨((C2_tag_preservation 10 exInstEmptyTags exDB2).1 rfl).1, ?_⟩
  have h := ((C2_tag_preservation 10 exInstNewTags exDB2).2 (by decide)).1
  rw [h]
  rfl

/-- The non-timestamp columns of a stored row. -/
structure RowCore where
  instanceId : String
  name : String
  region : String
  profile : String
  accountId : String
  state : String
  platform : String
deriving DecidableEq, Repr

/-- Strip a row to its non-timestamp columns. -/
def rowCore (r : Row) : RowCore :=
  ⟨r.instanceId, r.name, r.region, r.profile, r.accountId, r.state, r.platform⟩

/-- The non-timestamp columns an upsert of this record assigns. -/
def instCore (i : Instance) : RowCore :=
  ⟨i.instanceId, i.name, i.region, i.profile, i.accountId, i.state, i.platform⟩

/-- Key of a stripped row. -/
def coreKey (c : RowCore) : String × String × String :=
  (c.instanceId, c.region, c.profile)

/-- The unique-index invariant of the `instances` table: no two rows
share `(instance_id, region, profile)`. -/
def uniqueKeys (rows : List Row) : Prop :=
  (rows.map rowKey).Nodup

/-- The `instances`-table evolution of a batch transaction. -/
def applyRows (t : Nat) (B : List Instance) (rows : List Row) : List Row :=
  B.foldl (fun rs i => upsertRow t i rs) rows

/-- The `tags`-table evolution of a batch transaction. -/
def applyTags (B : List Instance) (ts : List Tag) : List Tag :=
  B.foldl (fun acc i => replaceTags i acc) ts

theorem applyBatch_components (t : Nat) (B : List Instance) (db : DB) :
    applyBatch t B db = ⟨applyRows t B db.instances, applyTags B db.tags, db.regions⟩ := by
  induction B generalizing db with
  | nil => rfl
  | cons i B ih => exact ih (saveRecord t i db)

theorem saveOrUpdateBatch_eq_applyBatch (t : Nat) (B : List Instance) (db : DB) :
    SaveOrUpdateBatch t B db = applyBatch t B db := by
  cases B <;> rfl

theorem updateFirst_map_rowKey (t : Nat) (i : Instance) (rows : List Row) :
    (updateFirst t i rows).map rowKey = rows.map rowKey := by
  induction rows with
  | nil => rfl
  | cons r rs ih =>
    simp only [updateFirst]
    by_cases h : rowKey r = instKey i
    · rw [if_pos h]; rfl
    · rw [if_neg h, List.map_cons, List.map_cons, ih]

theorem rowKey_createRow (t : Nat) (i : Instance) :
    rowKey (createRow t i) = instKey i := rfl

theorem upsertRow_map_rowKey (t : Nat) (i : Instance) (rows : List Row) :
    (upsertRow t i rows).map rowKey = rows.map rowKey ∨
    ((upsertRow t i rows).map rowKey = rows.map rowKey ++ [instKey i] ∧
      instKey i ∉ rows.map rowKey) := by
  unfold upsertRow
  by_cases h : rows.any (fun r => decide (rowKey r = instKey i)) = true
  · left; rw [if_pos h]; exact updateFirst_map_rowKey t i rows
  · right
    rw [if_neg h]
    constructor
    · simp [rowKey_createRow]
    · intro hmem
      rcases List.mem_map.mp hmem with ⟨r, hr, hk⟩
      exact h (List.any_eq_true.mpr ⟨r, hr, by simp [hk]⟩)

theorem uniqueKeys_upsertRow (t : Nat) (i : Instance) (rows : List Row)
    (hu : uniqueKeys rows) : uniqueKeys (upsertRow t i rows) := by
  rcases upsertRow_map_rowKey t i rows with h | ⟨h, hni⟩
  · unfold uniqueKeys; rw [h]; exact hu
  · unfold uniqueKeys
    rw [h]
    exact List.Nodup.append hu (List.nodup_singleton _)
      (List.disjoint_singleton.mpr hni)

theorem uniqueKeys_applyRows (t : Nat) (B : List Instance) (rows : List Row)
    (hu : uniqueKeys rows) : uniqueKeys (applyRows t B rows) := by
  induction B generalizing rows with
  | nil => exact hu
  | cons i B ih => exact ih _ (uniqueKeys_upsertRow t i rows hu)

/-- The stripped update: replace the first row keyed like the record by
the record's assigned columns. -/
def updateFirstCore (i : Instance) : List RowCore → List RowCore
  | [] => []
  | c :: cs => if coreKey c = instKey i then instCore i :: cs else c :: updateFirstCore i cs

/-- The stripped upsert. -/
def upsertCore (i : Instance) (cs : List RowCore) : List RowCore :=
  if cs.any (fun c => decide (coreKey c = instKey i)) then updateFirstCore i cs
  else cs ++ [instCore i]

/-- The stripped batch evolution. -/
def applyCore (B : List Instance) (cs : List RowCore) : List RowCore :=
  B.foldl (fun acc i => upsertCore i acc) cs

theorem coreKey_rowCore (r : Row) : coreKey (rowCore r) = rowKey r := rfl

theorem map_rowCore_updateFirst (t : Nat) (i : Instance) (rows : List Row) :
    (updateFirst t i rows).map rowCore = updateFirstCore i (rows.map rowCore) := by
  induction rows with
  | nil => rfl
  | cons r rs ih =>
    simp only [updateFirst, List.map_cons, updateFirstCore]
    by_cases h : rowKey r = instKey i
    · rw [if_pos h, if_pos (by rw [coreKey_rowCore, h]), List.map_cons]
      have hid : r.instanceId = i.instanceId := congrArg Prod.fst h
      have hrg : r.region = i.region := congrArg (fun p => p.2.1) h
      have hpf : r.profile = i.profile := congrArg (fun p => p.2.2) h
      show RowCore.mk r.instanceId i.name r.region r.profile i.accountId i.state i.platform
          :: rs.map rowCore = instCore i :: rs.map rowCore
      rw [hid, hrg, hpf]
      rfl
    · rw [if_neg h, if_neg (by rw [coreKey_rowCore]; exact h), List.map_cons, ih]

theorem map_rowCore_upsertRow (t : Nat) (i : Instance) (rows : List Row) :
    (upsertRow t i rows).map rowCore = upsertCore i (rows.map rowCore) := by
  unfold upsertRow upsertCore
  have hany : (rows.map rowCore).any (fun c => decide (coreKey c = instKey i)) =
      rows.any (fun r => decide (rowKey r = instKey i)) := by
    induction rows with
    | nil => rfl
    | cons r rs ih => simp only [List.map_cons, List.any_cons, ih, coreKey_rowCore]
  rw [hany]
  by_cases h : rows.any (fun r => decide (rowKey r = instKey i)) = true
  · rw [if_pos h, if_pos h]
    exact map_rowCore_updateFirst t i rows
  · rw [if_neg h, if_neg h, List.map_append]
    rfl

theorem map_rowCore_applyRows (t : Nat) (B : List Instance) (rows : List Row) :
    (applyRows t B rows).map rowCore = applyCore B (rows.map rowCore) := by
  induction B generalizing rows with
  | nil => rfl
  | cons i B ih =>
    show (applyRows t B (upsertRow t i rows)).map rowCore = applyCore B (upsertCore i (rows.map rowCore))
    rw [ih, map_rowCore_upsertRow]

/-- First stripped row with the given key. -/
def findCoreKey (k : String × String × String) (cs : List RowCore) : Option RowCore :=
  cs.find? (fun c => decide (coreKey c = k))

/-- The last record of a batch keyed `k` — the one whose assignment the
transaction leaves in place. -/
def lastKeyRec (B : List Instance) (k : String × String × String) : Option Instance :=
  B.reverse.find? (fun i => decide (instKey i = k))

theorem findCoreKey_updateFirstCore (i : Instance) (cs : List RowCore)
    (k : String × String × String)
    (hany : cs.any (fun c => decide (coreKey c = instKey i)) = true) :
    findCoreKey k (updateFirstCore i cs) =
      if k = instKey i then some (instCore i) else findCoreKey k cs := by
  induction cs with
  | nil => simp at hany
  | cons c cs ih =>
    by_cases hc : coreKey c = instKey i
    · simp only [updateFirstCore, if_pos hc, findCoreKey]
      by_cases hk : k = instKey i
      · rw [if_pos hk, List.find?_cons_of_pos _ (by simp [instCore, coreKey, instKey, hk])]
      · rw [if_neg hk,
          List.find?_cons_of_neg _ (by simp [instCore, coreKey, instKey]; exact fun hc2 => hk hc2.symm),
          List.find?_cons_of_neg _ (by simp; rw [hc]; exact fun hc2 => hk hc2.symm)]
    · have hany2 : cs.any (fun c => decide (coreKey c = instKey i)) = true := by
        rcases List.any_eq_true.mp hany with ⟨x, hx, hpx⟩
        rcases List.mem_cons.mp hx with rfl | hx
        · exact absurd (of_decide_eq_true hpx) hc
        · exact List.any_eq_true.mpr ⟨x, hx, hpx⟩
      simp only [updateFirstCore, if_neg hc, findCoreKey]
      by_cases hck : coreKey c = k
      · rw [List.find?_cons_of_pos _ (by simp [hck]), List.find?_cons_of_pos _ (by simp [hck])]
        have hk : ¬(k = instKey i) := fun hk => hc (hck.trans hk)
        rw [if_neg hk]
      · rw [List.find?_cons_of_neg _ (by simp [hck]), List.find?_cons_of_neg _ (by simp [hck])]
        exact ih hany2

theorem findCoreKey_upsertCore (i : Instance) (cs : List RowCore)
    (k : String × String × String) :
    findCoreKey k (upsertCore i cs) =
      if k = instKey i then some (instCore i) else findCoreKey k cs := by
  unfold upsertCore
  by_cases h : cs.any (fun c => decide (coreKey c = instKey i)) = true
  · rw [if_pos h]
    exact findCoreKey_updateFirstCore i cs k h
  · rw [if_neg h]
    have hnone : findCoreKey (instKey i) cs = none := by
      unfold findCoreKey
      rw [List.find?_eq_none]
      intro c hcm
      simp only [decide_eq_true_eq]
      intro hck
      exact h (List.any_eq_true.mpr ⟨c, hcm, by simp [hck]⟩)
    unfold findCoreKey
    rw [List.find?_append]
    by_cases hk : k = instKey i
    · rw [if_pos hk]
      have : cs.find? (fun c => decide (coreKey c = k)) = none := by
        rw [hk]; exact hnone
      rw [this]
      simp [instCore, coreKey, instKey, hk]
    · rw [if_neg hk]
      have h1 : [instCore i].find? (fun c => decide (coreKey c = k)) = none := by
        rw [List.find?_eq_none]
        intro c hcm
        simp only [List.mem_singleton] at hcm
        subst hcm
        simp only [decide_eq_true_eq]
        exact fun hc2 => hk hc2.symm
      cases h2 : cs.find? (fun c => decide (coreKey c = k)) <;> simp [h1, h2]

theorem findCoreKey_applyCore (B : List Instance) (cs : List RowCore)
    (k : String × String × String) :
    findCoreKey k (applyCore B cs) =
      match lastKeyRec B k with
      | some i => some (instCore i)
      | none => findCoreKey k cs := by
  induction B generalizing cs with
  | nil => rfl
  | cons i B ih =>
    show findCoreKey k (applyCore B (upsertCore i cs)) = _
    rw [ih]
    unfold lastKeyRec
    rw [List.reverse_cons, List.find?_append]
    cases hB : B.reverse.find? (fun j => decide (instKey j = k)) with
    | some j => rfl
    | none =>
      rw [findCoreKey_upsertCore]
      by_cases hk : k = instKey i
      · rw [if_pos hk]
        have h1 : [i].find? (fun j => decide (instKey j = k)) = some i :=
          List.find?_cons_of_pos _ (by simp [hk])
        rw [h1]
        simp
      · rw [if_neg hk]
        have h1 : [i].find? (fun j => decide (instKey j = k)) = none := by
          rw [List.find?_eq_none]
          intro j hj
          simp only [List.mem_singleton] at hj
          subst hj
          simp only [decide_eq_true_eq]
          exact fun hc2 => hk hc2.symm
        rw [h1]
        simp

/-- The `tags`-table view of one instance. -/
def tagsOf (iid : String) (ts : List Tag) : List Tag :=
  ts.filter (fun t => t.instanceId == iid)

theorem filter_not_id_other (iid jid : String) (hne : iid ≠ jid) (ts : List Tag) :
    (ts.filter (fun t => !(t.instanceId == jid))).filter (fun t => t.instanceId == iid) =
      ts.filter (fun t => t.instanceId == iid) := by
  induction ts with
  | nil => rfl
  | cons t rest ih =>
    by_cases h : t.instanceId == iid
    · have hti : t.instanceId = iid := by simpa using h
      have htne : (t.instanceId == jid) = false := by simp [hti, hne]
      simp [List.filter_cons, h, htne, ih]
    · by_cases h2 : t.instanceId == jid
      · simp [List.filter_cons, h, h2, ih]
      · simp [List.filter_cons, h, h2, ih]

theorem tagsOf_replaceTags (i : Instance) (ts : List Tag) (iid : String) :
    tagsOf iid (replaceTags i ts) =
      if i.tags.isEmpty then tagsOf iid ts
      else if iid = i.instanceId then
        i.tags.map (fun t => { t with instanceId := i.instanceId })
      else tagsOf iid ts := by
  unfold replaceTags
  by_cases he : i.tags.isEmpty
  · rw [if_pos he, if_pos he]
  · rw [if_neg he, if_neg he]
    unfold tagsOf
    rw [List.filter_append]
    by_cases hk : iid = i.instanceId
    · rw [if_pos hk, hk]
      rw [filter_not_id_then_id, List.nil_append, List.filter_eq_self.mpr]
      intro a ha
      rcases List.mem_map.mp ha with ⟨t, -, rfl⟩
      simp
    · rw [if_neg hk]
      have h2 : (i.tags.map (fun t => { t with instanceId := i.instanceId })).filter
          (fun t => t.instanceId == iid) = [] := by
        rw [List.filter_eq_nil_iff]
        intro a ha
        rcases List.mem_map.mp ha with ⟨t, -, rfl⟩
        simp
        exact fun hc => hk hc.symm
      rw [h2, List.append_nil, filter_not_id_other iid i.instanceId hk]

/-- The last record of a batch that rewrites this instance's tags. -/
def lastTagRec (B : List Instance) (iid : String) : Option Instance :=
  B.reverse.find? (fun i => decide (i.instanceId = iid) && !i.tags.isEmpty)

theorem tagsOf_applyTags (B : List Instance) (ts : List Tag) (iid : String) :
    tagsOf iid (applyTags B ts) =
      match lastTagRec B iid with
      | some i => i.tags.map (fun t => { t with instanceId := i.instanceId })
      | none => tagsOf iid ts := by
  induction B generalizing ts with
  | nil => rfl
  | cons i B ih =>
    show tagsOf iid (applyTags B (replaceTags i ts)) = _
    rw [ih]
    unfold lastTagRec
    rw [List.reverse_cons, List.find?_append]
    cases hB : B.reverse.find? (fun j => decide (j.instanceId = iid) && !j.tags.isEmpty) with
    | some j => rfl
    | none =>
      rw [tagsOf_replaceTags]
      by_cases he : i.tags.isEmpty
      · rw [if_pos he]
        have h1 : [i].find? (fun j => decide (j.instanceId = iid) && !j.tags.isEmpty) = none := by
          rw [List.find?_eq_none]
          intro j hj
          simp only [List.mem_singleton] at hj
          subst hj
          simp [he]
        rw [h1]
        simp
      · rw [if_neg he]
        by_cases hk : iid = i.instanceId
        · rw [if_pos hk]
          have h1 : [i].find? (fun j => decide (j.instanceId = iid) && !j.tags.isEmpty) = some i :=
            List.find?_cons_of_pos _ (by simp [hk.symm, he])
          rw [h1]
          simp [hk]
        · rw [if_neg hk]
          have h1 : [i].find? (fun j => decide (j.instanceId = iid) && !j.tags.isEmpty) = none := by
            rw [List.find?_eq_none]
            intro j hj
            simp only [List.mem_singleton] at hj
            subst hj
            simp [he]
            exact fun hc => hk hc.symm
          rw [h1]
          simp

theorem mem_updateFirst_untouched (t : Nat) (i : Instance) (rows : List Row) (r : Row)
    (hr : r ∈ updateFirst t i rows) (hne : rowKey r ≠ instKey i) : r ∈ rows := by
  induction rows with
  | nil => cases hr
  | cons c cs ih =>
    simp only [updateFirst] at hr
    by_cases h : rowKey c = instKey i
    · rw [if_pos h] at hr
      rcases List.mem_cons.mp hr with rfl | hr
      · exact absurd h hne
      · exact List.mem_cons_of_mem _ hr
    · rw [if_neg h] at hr
      rcases List.mem_cons.mp hr with rfl | hr
      · exact List.mem_cons_self _ _
      · exact List.mem_cons_of_mem _ (ih hr)

theorem mem_upsertRow_untouched (t : Nat) (i : Instance) (rows : List Row) (r : Row)
    (hr : r ∈ upsertRow t i rows) (hne : rowKey r ≠ instKey i) : r ∈ rows := by
  unfold upsertRow at hr
  by_cases h : rows.any (fun x => decide (rowKey x = instKey i)) = true
  · rw [if_pos h] at hr
    exact mem_updateFirst_untouched t i rows r hr hne
  · rw [if_neg h] at hr
    rcases List.mem_append.mp hr with hr | hr
    · exact hr
    · simp only [List.mem_singleton] at hr
      subst hr
      exact absurd (rowKey_createRow t i) hne

theorem mem_applyRows_untouched (t : Nat) (B : List Instance) (rows : List Row) (r : Row)
    (hr : r ∈ applyRows t B rows) (hne : rowKey r ∉ B.map instKey) : r ∈ rows := by
  induction B generalizing rows with
  | nil => exact hr
  | cons i B ih =>
    simp only [List.map_cons, List.mem_cons] at hne
    push_neg at hne
    exact mem_upsertRow_untouched t i rows r (ih _ hr hne.2) hne.1

theorem lastSeen_updateFirst_key (t : Nat) (i : Instance) (rows : List Row)
    (hu : uniqueKeys rows) (r : Row) (hr : r ∈ updateFirst t i rows)
    (hk : rowKey r = instKey i) : r.lastSeen = t := by
  induction rows with
  | nil => cases hr
  | cons c cs ih =>
    have hu2 : uniqueKeys cs := (List.nodup_cons.mp hu).2
    have hnotin : rowKey c ∉ cs.map rowKey := (List.nodup_cons.mp hu).1
    simp only [updateFirst] at hr
    by_cases h : rowKey c = instKey i
    · rw [if_pos h] at hr
      rcases List.mem_cons.mp hr with rfl | hr
      · rfl
      · have hmem : rowKey r ∈ cs.map rowKey := List.mem_map_of_mem rowKey hr
        rw [hk, ← h] at hmem
        exact absurd hmem hnotin
    · rw [if_neg h] at hr
      rcases List.mem_cons.mp hr with rfl | hr
      · exact absurd hk h
      · exact ih hu2 hr

theorem lastSeen_upsertRow_key (t : Nat) (i : Instance) (rows : List Row)
    (hu : uniqueKeys rows) (r : Row) (hr : r ∈ upsertRow t i rows)
    (hk : rowKey r = instKey i) : r.lastSeen = t := by
  unfold upsertRow at hr
  by_cases h : rows.any (fun x => decide (rowKey x = instKey i)) = true
  · rw [if_pos h] at hr
    exact lastSeen_updateFirst_key t i rows hu r hr hk
  · rw [if_neg h] at hr
    rcases List.mem_append.mp hr with hr | hr
    · exact absurd (List.any_eq_true.mpr ⟨r, hr, by simp [hk]⟩) h
    · simp only [List.mem_singleton] at hr
      subst hr
      rfl

theorem lastSeen_applyRows_key (t : Nat) (B : List Instance) (rows : List Row)
    (hu : uniqueKeys rows) (r : Row) (hr : r ∈ applyRows t B rows)
    (hk : rowKey r ∈ B.map instKey) : r.lastSeen = t := by
  induction B generalizing rows with
  | nil => simp at hk
  | cons i B ih =>
    have hu2 := uniqueKeys_upsertRow t i rows hu
    by_cases hkB : rowKey r ∈ B.map instKey
    · exact ih _ hu2 hr hkB
    · simp only [List.map_cons, List.mem_cons] at hk
      rcases hk with hk | hk
      · have hr2 : r ∈ upsertRow t i rows :=
          mem_applyRows_untouched t B _ r hr hkB
        exact lastSeen_upsertRow_key t i rows hu r hr2 hk
      · exact absurd hk hkB

/-- C8: applying a batch twice leaves one stored row per unique
`(instance_id, region, profile)` key (the unique-index invariant is
preserved), the non-timestamp view of every key and the tag view of every
instance are identical to applying it once, and every row keyed by the
batch carries the second application's `last_seen` stamp — `last_seen` is
refreshed even though nothing else changed. -/
theorem C8_batch_idempotence (t1 t2 : Nat) (batch : List Instance) (db : DB)
    (hu : uniqueKeys db.instances) :
    uniqueKeys (SaveOrUpdateBatch t2 batch (SaveOrUpdateBatch t1 batch db)).instances ∧
    (∀ k, findCoreKey k
        ((SaveOrUpdateBatch t2 batch (SaveOrUpdateBatch t1 batch db)).instances.map rowCore) =
      findCoreKey k ((SaveOrUpdateBatch t1 batch db).instances.map rowCore)) ∧
    (∀ iid, tagsFor (SaveOrUpdateBatch t2 batch (SaveOrUpdateBatch t1 batch db)) iid =
      tagsFor (SaveOrUpdateBatch t1 batch db) iid) ∧
    (∀ r ∈ (SaveOrUpdateBatch t2 batch (SaveOrUpdateBatch t1 batch db)).instances,
      rowKey r ∈ batch.map instKey → r.lastSeen = t2) := by
  have e1 : SaveOrUpdateBatch t1 batch db =
      ⟨applyRows t1 batch db.instances, applyTags batch db.tags, db.regions⟩ := by
    rw [saveOrUpdateBatch_eq_applyBatch, applyBatch_components]
  have e2 : SaveOrUpdateBatch t2 batch (SaveOrUpdateBatch t1 batch db) =
      ⟨applyRows t2 batch (applyRows t1 batch db.instances),
        applyTags batch (applyTags batch db.tags), db.regions⟩ := by
    rw [e1, saveOrUpdateBatch_eq_applyBatch, applyBatch_components]
  rw [e2, e1]
  have hu1 : uniqueKeys (applyRows t1 batch db.instances) :=
    uniqueKeys_applyRows t1 batch db.instances hu
  refine ⟨uniqueKeys_applyRows t2 batch _ hu1, ?_, ?_, ?_⟩
  · intro k
    show findCoreKey k ((applyRows t2 batch (applyRows t1 batch db.instances)).map rowCore) =
      findCoreKey k ((applyRows t1 batch db.instances).map rowCore)
    rw [map_rowCore_applyRows, findCoreKey_applyCore]
    cases h : lastKeyRec batch k with
    | some i =>
      rw [map_rowCore_applyRows, findCoreKey_applyCore, h]
    | none => rfl
  · intro iid
    show tagsOf iid (applyTags batch (applyTags batch db.tags)) =
      tagsOf iid (applyTags batch db.tags)
    rw [tagsOf_applyTags]
    cases h : lastTagRec batch iid with
    | some i => rw [tagsOf_applyTags, h]
    | none => rfl
  · intro r hr hk
    exact lastSeen_applyRows_key t2 batch _ hu1 r hr hk

def exDBEmpty : DB := ⟨[], [], []⟩

/-- Witness for C8 at a concrete batch over the empty store. -/
theorem C8_batch_idempotence_witness :
    uniqueKeys (SaveOrUpdateBatch 2 [exInstNewTags]
      (SaveOrUpdateBatch 1 [exInstNewTags] exDBEmpty)).instances ∧
    (∀ iid, tagsFor (SaveOrUpdateBatch 2 [exInstNewTags]
        (SaveOrUpdateBatch 1 [exInstNewTags] exDBEmpty)) iid =
      tagsFor (SaveOrUpdateBatch 1 [exInstNewTags] exDBEmpty) iid) ∧
    (∀ r ∈ (SaveOrUpdateBatch 2 [exInstNewTags]
        (SaveOrUpdateBatch 1 [exInstNewTags] exDBEmpty)).instances,
      rowKey r ∈ [exInstNewTags].map instKey → r.lastSeen = 2) := by
  have h := C8_batch_idempotence 1 2 [exInstNewTags] exDBEmpty (by simp [uniqueKeys, exDBEmpty])
  exact ⟨h.1, h.2.2.1, h.2.2.2⟩

/-- A batch-write transaction either fails and rolls the store back, or
commits the whole batch. -/
theorem saveOrUpdateBatchF_cases (failAt : Option Nat) (t : Nat)
    (batch : List Instance) (db : DB) :
    SaveOrUpdateBatchF failAt t batch db = (db, Except.error "failed to save instance") ∨
    SaveOrUpdateBatchF failAt t batch db = (applyBatch t batch db, Except.ok ()) := by
  unfold SaveOrUpdateBatchF
  by_cases he : batch.isEmpty
  · right
    rw [if_pos he]
    have : batch = [] := List.isEmpty_iff.mp he
    subst this
    rfl
  · rw [if_neg he]
    cases failAt with
    | none => right; rfl
    | some k =>
      by_cases hk : k < batch.length
      · left; simp [hk]
      · right; simp [hk]

theorem saveOrUpdateBatchF_none_fst (t : Nat) (batch : List Instance) (db : DB) :
    (SaveOrUpdateBatchF none t batch db).1 = applyBatch t batch db := by
  unfold SaveOrUpdateBatchF
  by_cases he : batch.isEmpty
  · rw [if_pos he]
    have : batch = [] := List.isEmpty_iff.mp he
    subst this
    rfl
  · rw [if_neg he]

def exEnvC3 : UnitEnv :=
  { clientOk := true, accountId := "123"
    ec2Fetch := Except.ok [⟨"i-1", "running", none, none⟩]
    ec2SaveFailAt := none
    ssmFetch := Except.ok [⟨some "mi-1", some "m1", none, "Online", none⟩]
    ssmSaveFailAt := some 0 }

/-- Counterexample to C3 as stated: in a unit whose agent-batch store
write fails, the unit still reports success, and afterwards the store
holds the compute-source record but not the agent-source record — the two
converted sets are not covered by one all-or-nothing transaction, and a
store failure during the writes is not fatal for the unit. -/
theorem C3_counterexample :
    (discoverUnit exEnvC3 7 "dev" "eu-west-1" exDBEmpty).2 = Except.ok () ∧
    (discoverUnit exEnvC3 7 "dev" "eu-west-1" exDBEmpty).1.instances.map rowKey =
      [("i-1", "eu-west-1", "dev")] := by
  exact ⟨rfl, rfl⟩

/-- C3 (amended): each of a unit's two converted sets is written in its
own batch-upsert transaction; each such transaction is internally
all-or-nothing (it either rolls the store back and reports the error, or
commits the whole batch); and a store write failure is only logged — the
unit reports success exactly when client construction and the two remote
fetches succeed, regardless of store failures. -/
theorem C3_unit_transactions_amended (env : UnitEnv) (now : Nat)
    (profile region : String) (db : DB) :
    (∀ (failAt : Option Nat) (t : Nat) (batch : List Instance) (d : DB),
      SaveOrUpdateBatchF failAt t batch d = (d, Except.error "failed to save instance") ∨
      SaveOrUpdateBatchF failAt t batch d = (applyBatch t batch d, Except.ok ())) ∧
    ((discoverUnit env now profile region db).2 = Except.ok () ↔
      env.clientOk = true ∧
      (∃ l, env.ec2Fetch = Except.ok l) ∧ (∃ m, env.ssmFetch = Except.ok m)) := by
  refine ⟨saveOrUpdateBatchF_cases, ?_⟩
  unfold discoverUnit
  cases hc : env.clientOk with
  | false => simp [hc]
  | true =>
    cases he : env.ec2Fetch with
    | error e => simp [hc, he]
    | ok l =>
      cases hs : env.ssmFetch with
      | error e => simp [hc, he, hs]
      | ok m =>
        simp only [hc, Bool.not_true, Bool.false_eq_true, if_false, he, hs]
        by_cases hemp : ((ssmFilter m).map
            (fun mi => ConvertSSMManagedInstance mi region profile env.accountId)).isEmpty
        · rw [if_pos hemp]
          simp
        · rw [if_neg hemp]
          simp

/-- Rows stored under a given `instance_id` (any region/profile). -/
def countId (x : String) (rows : List Row) : Nat :=
  rows.countP (fun r => r.instanceId == x)

theorem countId_updateFirst (t : Nat) (i : Instance) (rows : List Row) (x : String) :
    countId x (updateFirst t i rows) = countId x rows := by
  induction rows with
  | nil => rfl
  | cons c cs ih =>
    simp only [updateFirst]
    by_cases h : rowKey c = instKey i
    · rw [if_pos h]
      unfold countId
      rw [List.countP_cons, List.countP_cons]
    · rw [if_neg h]
      unfold countId
      rw [List.countP_cons, List.countP_cons]
      unfold countId at ih
      rw [ih]

theorem countId_upsertRow_ne (t : Nat) (i : Instance) (rows : List Row) (x : String)
    (hne : i.instanceId ≠ x) : countId x (upsertRow t i rows) = countId x rows := by
  unfold upsertRow
  by_cases h : rows.any (fun r => decide (rowKey r = instKey i)) = true
  · rw [if_pos h]
    exact countId_updateFirst t i rows x
  · rw [if_neg h]
    unfold countId
    rw [List.countP_append]
    have : List.countP (fun r => r.instanceId == x) [createRow t i] = 0 := by
      simp [createRow, hne]
    rw [this]
    exact Nat.add_zero _

theorem countId_upsertRow_new (t : Nat) (i : Instance) (rows : List Row)
    (heq : i.instanceId = x) (h0 : countId x rows = 0) :
    countId x (upsertRow t i rows) = 1 := by
  unfold upsertRow
  have hany : rows.any (fun r => decide (rowKey r = instKey i)) = false := by
    rw [List.any_eq_false]
    intro r hr
    simp only [decide_eq_true_eq]
    intro hkey
    have hid : r.instanceId = i.instanceId := congrArg Prod.fst hkey
    have : (fun q => q.instanceId == x) r = true := by simp [hid, heq]
    have hmem := List.countP_eq_zero.mp h0 r hr
    exact hmem this
  rw [hany]
  simp only [Bool.false_eq_true, if_false]
  unfold countId
  rw [List.countP_append]
  unfold countId at h0
  rw [h0]
  simp [createRow, heq]

theorem countId_applyRows_none (t : Nat) (B : List Instance) (rows : List Row) (x : String)
    (hB : ∀ i ∈ B, i.instanceId ≠ x) :
    countId x (applyRows t B rows) = countId x rows := by
  induction B generalizing rows with
  | nil => rfl
  | cons i B ih =>
    show countId x (applyRows t B (upsertRow t i rows)) = _
    rw [ih _ (fun j hj => hB j (List.mem_cons_of_mem _ hj)),
      countId_upsertRow_ne t i rows x (hB i (List.mem_cons_self _ _))]

theorem countId_applyRows_one (t : Nat) (B : List Instance) (rows : List Row) (x : String)
    (h0 : countId x rows = 0) (hB : B.countP (fun i => i.instanceId == x) = 1) :
    countId x (applyRows t B rows) = 1 := by
  induction B generalizing rows with
  | nil => simp at hB
  | cons i B ih =>
    show countId x (applyRows t B (upsertRow t i rows)) = 1
    rw [List.countP_cons] at hB
    by_cases hi : i.instanceId = x
    · have hB0 : B.countP (fun j => j.instanceId == x) = 0 := by
        simpa [hi] using hB
      have hall : ∀ j ∈ B, j.instanceId ≠ x := by
        intro j hj hc
        have := List.countP_eq_zero.mp hB0 j hj
        simp [hc] at this
      rw [countId_applyRows_none t B _ x hall]
      exact countId_upsertRow_new t i rows hi h0
    · have hB1 : B.countP (fun j => j.instanceId == x) = 1 := by
        simpa [hi] using hB
      exact ih _ (by rw [countId_upsertRow_ne t i rows x hi]; exact h0) hB1

/-- On the unit's fully successful path the store ends as the agent batch
applied after the compute batch, each in its own transaction. -/
theorem discoverUnit_ok_db (env : UnitEnv) (now : Nat) (profile region : String)
    (db : DB) (insts : List EC2Instance) (mis : List SSMInstanceInformation)
    (hcli : env.clientOk = true) (hec2 : env.ec2Fetch = Except.ok insts)
    (hssm : env.ssmFetch = Except.ok mis)
    (hf1 : env.ec2SaveFailAt = none) (hf2 : env.ssmSaveFailAt = none) :
    (discoverUnit env now profile region db).1 =
      applyBatch now
        ((ssmFilter mis).map (fun mi => ConvertSSMManagedInstance mi region profile env.accountId))
        (applyBatch now
          (insts.map (fun e => ConvertEC2Instance e region profile env.accountId)) db) := by
  unfold discoverUnit
  rw [hec2, hssm, hf1, hf2]
  simp only [hcli, Bool.not_true, Bool.false_eq_true, if_false]
  rw [saveOrUpdateBatchF_none_fst]
  by_cases hemp : ((ssmFilter mis).map
      (fun mi => ConvertSSMManagedInstance mi region profile env.accountId)).isEmpty
  · rw [if_pos hemp]
    have : (ssmFilter mis).map
        (fun mi => ConvertSSMManagedInstance mi region profile env.accountId) = [] :=
      List.isEmpty_iff.mp hemp
    rw [this]
    rfl
  · rw [if_neg hemp, saveOrUpdateBatchF_none_fst]

/-- C7: only `mi-`-prefixed agent entries are converted into the agent
batch; a compute instance whose id is also reported by the agent source
under the compute prefix ends as exactly one stored row, and an
agent-only `mi-` instance ends as exactly one stored row. -/
theorem C7_dedup_prefix_filter (env : UnitEnv) (now : Nat) (profile region : String)
    (db : DB) (insts : List EC2Instance) (mis : List SSMInstanceInformation)
    (hcli : env.clientOk = true) (hec2 : env.ec2Fetch = Except.ok insts)
    (hssm : env.ssmFetch = Except.ok mis)
    (hf1 : env.ec2SaveFailAt = none) (hf2 : env.ssmSaveFailAt = none) :
    (∀ i ∈ (ssmFilter mis).map
        (fun mi => ConvertSSMManagedInstance mi region profile env.accountId),
      i.instanceId.take 3 = "mi-") ∧
    (∀ cid : String, cid.take 3 ≠ "mi-" →
      insts.countP (fun e => e.instanceId == cid) = 1 →
      countId cid db.instances = 0 →
      countId cid (discoverUnit env now profile region db).1.instances = 1) ∧
    (∀ aid : String, aid.take 3 = "mi-" → 3 ≤ aid.length →
      insts.countP (fun e => e.instanceId == aid) = 0 →
      mis.countP (fun mi => mi.instanceId == some aid) = 1 →
      countId aid db.instances = 0 →
      countId aid (discoverUnit env now profile region db).1.instances = 1) := by
  have hdb := discoverUnit_ok_db env now profile region db insts mis hcli hec2 hssm hf1 hf2
  have hfiltered : ∀ mi ∈ ssmFilter mis, ∃ iid, mi.instanceId = some iid ∧
      3 ≤ iid.length ∧ iid.take 3 = "mi-" := by
    intro mi hmi
    have := List.of_mem_filter hmi
    cases hid : mi.instanceId with
    | none => rw [hid] at this; simp at this
    | some iid =>
      rw [hid] at this
      simp only [Bool.and_eq_true, decide_eq_true_eq, beq_iff_eq] at this
      exact ⟨iid, rfl, this.1, this.2⟩
  refine ⟨?_, ?_, ?_⟩
  · intro i hi
    rcases List.mem_map.mp hi with ⟨mi, hmi, rfl⟩
    rcases hfiltered mi hmi with ⟨iid, hid, -, htake⟩
    show (ConvertSSMManagedInstance mi region profile env.accountId).instanceId.take 3 = "mi-"
    unfold ConvertSSMManagedInstance
    rw [hid]
    exact htake
  · intro cid hcid hone h0
    rw [hdb, applyBatch_components, applyBatch_components]
    show countId cid (applyRows now _ (applyRows now _ db.instances)) = 1
    have hc1 : countId cid (applyRows now
        (insts.map (fun e => ConvertEC2Instance e region profile env.accountId))
        db.instances) = 1 := by
      apply countId_applyRows_one now _ _ _ h0
      rw [List.countP_map]
      exact hone
    rw [countId_applyRows_none now _ _ cid ?hall]
    · exact hc1
    case hall =>
      intro i hi hcontra
      rcases List.mem_map.mp hi with ⟨mi, hmi, rfl⟩
      rcases hfiltered mi hmi with ⟨iid, hid, -, htake⟩
      have hTake : (ConvertSSMManagedInstance mi region profile env.accountId).instanceId.take 3
          = "mi-" := by
        unfold ConvertSSMManagedInstance
        rw [hid]
        exact htake
      rw [hcontra] at hTake
      exact hcid hTake
  · intro aid htake hlen hec0 hssm1 h0
    have haid_ne : aid ≠ "" := by
      intro h
      rw [h] at hlen
      simp at hlen
    rw [hdb, applyBatch_components, applyBatch_components]
    show countId aid (applyRows now _ (applyRows now _ db.instances)) = 1
    have hc0 : countId aid (applyRows now
        (insts.map (fun e => ConvertEC2Instance e region profile env.accountId))
        db.instances) = 0 := by
      rw [countId_applyRows_none now _ _ aid ?hallec]
      · exact h0
      case hallec =>
        intro i hi hcontra
        rcases List.mem_map.mp hi with ⟨e, he, rfl⟩
        have := List.countP_eq_zero.mp hec0 e he
        simp only [beq_iff_eq] at this
        exact this hcontra
    apply countId_applyRows_one now _ _ _ hc0
    rw [List.countP_map]
    unfold ssmFilter
    rw [List.countP_filter]
    rw [← hssm1]
    apply List.countP_congr
    intro mi hmi
    cases hid : mi.instanceId with
    | none =>
      have hcv : (ConvertSSMManagedInstance mi region profile env.accountId).instanceId = "" := by
        unfold ConvertSSMManagedInstance
        rw [hid]
        rfl
      simp [hcv, hid, Ne.symm haid_ne]
    | some iid =>
      have hcv : (ConvertSSMManagedInstance mi region profile env.accountId).instanceId = iid := by
        unfold ConvertSSMManagedInstance
        rw [hid]
        rfl
      by_cases hiid : iid = aid
      · subst hiid
        simp [hcv, hid, hlen, htake]
      · simp [hcv, hid, hiid]

def exEnvC7 : UnitEnv :=
  { clientOk := true, accountId := "123"
    ec2Fetch := Except.ok [⟨"i-abc", "running", none, none⟩]
    ec2SaveFailAt := none
    ssmFetch := Except.ok [⟨some "i-abc", some "n1", none, "Online", none⟩,
      ⟨some "mi-xyz", some "n2", none, "Online", none⟩]
    ssmSaveFailAt := none }

/-- Witness for C7: a unit seeing compute instance `i-abc`, an agent
entry for the same `i-abc`, and an agent-only `mi-xyz` stores exactly one
row for each id. -/
theorem C7_dedup_prefix_filter_witness :
    countId "i-abc" (discoverUnit exEnvC7 5 "dev" "eu-west-1" exDBEmpty).1.instances = 1 ∧
    countId "mi-xyz" (discoverUnit exEnvC7 5 "dev" "eu-west-1" exDBEmpty).1.instances = 1 := by
  have h := C7_dedup_prefix_filter exEnvC7 5 "dev" "eu-west-1" exDBEmpty _ _
    rfl rfl rfl rfl rfl
  exact ⟨h.2.1 "i-abc" (by decide) (by decide) (by decide),
    h.2.2 "mi-xyz" (by decide) (by decide) (by decide) (by decide) (by decide)⟩

/-- The unit's outcome as a function of its environment alone: the store
state never influences it (write failures are only logged). -/
def unitResult (env : UnitEnv) : Except String Unit :=
  if !env.clientOk then Except.error "failed to get AWS client"
  else
    match env.ec2Fetch with
    | Except.error e => Except.error ("failed to describe instances: " ++ e)
    | Except.ok _ =>
      match env.ssmFetch with
      | Except.error e => Except.error ("failed to list SSM managed instances: " ++ e)
      | Except.ok _ => Except.ok ()

/-- Whether the unit posts an error to the channel. -/
def unitFails (env : UnitEnv) : Bool :=
  match unitResult env with
  | Except.ok _ => false
  | Except.error _ => true

theorem discoverUnit_snd (env : UnitEnv) (now : Nat) (profile region : String) (db : DB) :
    (discoverUnit env now profile region db).2 = unitResult env := by
  unfold discoverUnit unitResult
  cases hc : env.clientOk with
  | false => rfl
  | true =>
    simp only [Bool.not_true, Bool.false_eq_true, if_false]
    cases he : env.ec2Fetch with
    | error e => rfl
    | ok l =>
      cases hs : env.ssmFetch with
      | error e => rfl
      | ok m =>
        by_cases hemp : ((ssmFilter m).map
            (fun mi => ConvertSSMManagedInstance mi region profile env.accountId)).isEmpty
        · simp [hemp]
        · simp [hemp]

theorem mem_updateFirst_of_ne (t : Nat) (i : Instance) (rows : List Row) (r : Row)
    (hr : r ∈ rows) (hne : rowKey r ≠ instKey i) : r ∈ updateFirst t i rows := by
  induction rows with
  | nil => cases hr
  | cons c cs ih =>
    simp only [updateFirst]
    by_cases h : rowKey c = instKey i
    · rw [if_pos h]
      rcases List.mem_cons.mp hr with rfl | hr
      · exact absurd h hne
      · exact List.mem_cons_of_mem _ hr
    · rw [if_neg h]
      rcases List.mem_cons.mp hr with rfl | hr
      · exact List.mem_cons_self _ _
      · exact List.mem_cons_of_mem _ (ih hr)

theorem updateFirst_contains_key (t : Nat) (i : Instance) (rows : List Row)
    (hany : rows.any (fun r => decide (rowKey r = instKey i)) = true) :
    ∃ r ∈ updateFirst t i rows, rowKey r = instKey i ∧ r.lastSeen = t := by
  induction rows with
  | nil => simp at hany
  | cons c cs ih =>
    simp only [updateFirst]
    by_cases h : rowKey c = instKey i
    · rw [if_pos h]
      refine ⟨_, List.mem_cons_self _ _, ?_, rfl⟩
      show rowKey c = instKey i
      exact h
    · rw [if_neg h]
      have hany2 : cs.any (fun r => decide (rowKey r = instKey i)) = true := by
        rcases List.any_eq_true.mp hany with ⟨x, hx, hpx⟩
        rcases List.mem_cons.mp hx with rfl | hx
        · exact absurd (of_decide_eq_true hpx) h
        · exact List.any_eq_true.mpr ⟨x, hx, hpx⟩
      rcases ih hany2 with ⟨r, hrm, hrk, hrl⟩
      exact ⟨r, List.mem_cons_of_mem _ hrm, hrk, hrl⟩

theorem upsertRow_contains_key (t : Nat) (i : Instance) (rows : List Row) :
    ∃ r ∈ upsertRow t i rows, rowKey r = instKey i ∧ r.lastSeen = t := by
  unfold upsertRow
  by_cases h : rows.any (fun r => decide (rowKey r = instKey i)) = true
  · rw [if_pos h]
    exact updateFirst_contains_key t i rows h
  · rw [if_neg h]
    exact ⟨createRow t i, List.mem_append_right _ (List.mem_singleton_self _),
      rowKey_createRow t i, rfl⟩

theorem key_preserved_upsertRow (t : Nat) (i : Instance) (rows : List Row)
    (k : String × String × String)
    (h : ∃ r ∈ rows, rowKey r = k ∧ r.lastSeen = t) :
    ∃ r ∈ upsertRow t i rows, rowKey r = k ∧ r.lastSeen = t := by
  by_cases hk : instKey i = k
  · rcases upsertRow_contains_key t i rows with ⟨r, hrm, hrk, hrl⟩
    exact ⟨r, hrm, hrk.trans hk, hrl⟩
  · rcases h with ⟨r, hrm, hrk, hrl⟩
    have hne : rowKey r ≠ instKey i := by
      rw [hrk]
      exact fun hc => hk hc.symm
    refine ⟨r, ?_, hrk, hrl⟩
    unfold upsertRow
    by_cases ha : rows.any (fun x => decide (rowKey x = instKey i)) = true
    · rw [if_pos ha]
      exact mem_updateFirst_of_ne t i rows r hrm hne
    · rw [if_neg ha]
      exact List.mem_append_left _ hrm

theorem key_preserved_applyRows (t : Nat) (B : List Instance) (rows : List Row)
    (k : String × String × String)
    (h : ∃ r ∈ rows, rowKey r = k ∧ r.lastSeen = t) :
    ∃ r ∈ applyRows t B rows, rowKey r = k ∧ r.lastSeen = t := by
  induction B generalizing rows with
  | nil => exact h
  | cons i B ih => exact ih _ (key_preserved_upsertRow t i rows k h)

theorem key_established_applyRows (t : Nat) (B : List Instance) (rows : List Row)
    (k : String × String × String) (hk : k ∈ B.map instKey) :
    ∃ r ∈ applyRows t B rows, rowKey r = k ∧ r.lastSeen = t := by
  induction B generalizing rows with
  | nil => simp at hk
  | cons i B ih =>
    simp only [List.map_cons, List.mem_cons] at hk
    by_cases hkB : k ∈ B.map instKey
    · exact ih _ hkB
    · rcases hk with hk | hk
      · subst hk
        exact key_preserved_applyRows t B _ _ (upsertRow_contains_key t i rows)
      · exact absurd hk hkB

/-- A row stamped at the shared `now` survives any unit's store
mutations. -/
theorem key_preserved_discoverUnit (env : UnitEnv) (now : Nat)
    (profile region : String) (db : DB) (k : String × String × String)
    (h : ∃ r ∈ db.instances, rowKey r = k ∧ r.lastSeen = now) :
    ∃ r ∈ (discoverUnit env now profile region db).1.instances,
      rowKey r = k ∧ r.lastSeen = now := by
  have hbf : ∀ (failAt : Option Nat) (batch : List Instance) (d : DB),
      (∃ r ∈ d.instances, rowKey r = k ∧ r.lastSeen = now) →
      ∃ r ∈ (SaveOrUpdateBatchF failAt now batch d).1.instances,
        rowKey r = k ∧ r.lastSeen = now := by
    intro failAt batch d hd
    rcases saveOrUpdateBatchF_cases failAt now batch d with hc | hc
    · rw [hc]
      exact hd
    · rw [hc, applyBatch_components]
      exact key_preserved_applyRows now batch d.instances k hd
  by_cases hc : env.clientOk = true
  · cases he : env.ec2Fetch with
    | error e =>
      have hred : (discoverUnit env now profile region db).1 = db := by
        unfold discoverUnit
        simp [hc, he]
      rw [hred]
      exact h
    | ok l =>
      cases hs : env.ssmFetch with
      | error e =>
        have hred : (discoverUnit env now profile region db).1 =
            (SaveOrUpdateBatchF env.ec2SaveFailAt now
              (l.map (fun e => ConvertEC2Instance e region profile env.accountId)) db).1 := by
          unfold discoverUnit
          simp [hc, he, hs]
        rw [hred]
        exact hbf _ _ _ h
      | ok m =>
        by_cases hemp : ((ssmFilter m).map
            (fun mi => ConvertSSMManagedInstance mi region profile env.accountId)).isEmpty
        · have hred : (discoverUnit env now profile region db).1 =
              (SaveOrUpdateBatchF env.ec2SaveFailAt now
                (l.map (fun e => ConvertEC2Instance e region profile env.accountId)) db).1 := by
            unfold discoverUnit
            simp [hc, he, hs, hemp]
          rw [hred]
          exact hbf _ _ _ h
        · have hred : (discoverUnit env now profile region db).1 =
              (SaveOrUpdateBatchF env.ssmSaveFailAt now
                ((ssmFilter m).map
                  (fun mi => ConvertSSMManagedInstance mi region profile env.accountId))
                (SaveOrUpdateBatchF env.ec2SaveFailAt now
                  (l.map (fun e => ConvertEC2Instance e region profile env.accountId)) db).1).1 := by
            unfold discoverUnit
            simp [hc, he, hs, hemp]
          rw [hred]
          exact hbf _ _ _ (hbf _ _ _ h)
  · have hc2 : env.clientOk = false := by
      cases hcb : env.clientOk
      · rfl
      · exact absurd hcb hc
    have hred : (discoverUnit env now profile region db).1 = db := by
      unfold discoverUnit
      simp [hc2]
    rw [hred]
    exact h

/-- On the fully successful path every record the unit writes ends up
stored with `last_seen = now`. -/
theorem keys_established_discoverUnit (env : UnitEnv) (now : Nat)
    (profile region : String) (db : DB)
    (insts : List EC2Instance) (mis : List SSMInstanceInformation)
    (hcli : env.clientOk = true) (hec2 : env.ec2Fetch = Except.ok insts)
    (hssm : env.ssmFetch = Except.ok mis)
    (hf1 : env.ec2SaveFailAt = none) (hf2 : env.ssmSaveFailAt = none) :
    ∀ i ∈ unitWrites env profile region,
      ∃ r ∈ (discoverUnit env now profile region db).1.instances,
        rowKey r = instKey i ∧ r.lastSeen = now := by
  intro i hi
  rw [discoverUnit_ok_db env now profile region db insts mis hcli hec2 hssm hf1 hf2,
    applyBatch_components]
  show ∃ r ∈ applyRows now _ (applyBatch now _ db).instances, _
  rw [applyBatch_components]
  unfold unitWrites at hi
  rw [hec2, hssm] at hi
  rcases List.mem_append.mp hi with hi | hi
  · exact key_preserved_applyRows now _ _ _
      (key_established_applyRows now _ db.instances _ (List.mem_map_of_mem instKey hi))
  · exact key_established_applyRows now _ _ _ (List.mem_map_of_mem instKey hi)

/-- The per-unit loop body of `DiscoverInstances`, folded over the
scheduled units: store evolution plus error count. -/
def discoverFold (envOf : String → String → UnitEnv) (now : Nat)
    (units : List (String × String)) (acc : DB × Nat) : DB × Nat :=
  units.foldl
    (fun (acc : DB × Nat) u =>
      let res := discoverUnit (envOf u.1 u.2) now u.1 u.2 acc.1
      (res.1, acc.2 + (match res.2 with | Except.ok _ => 0 | Except.error _ => 1)))
    acc

theorem discoverFold_count (envOf : String → String → UnitEnv) (now : Nat)
    (units : List (String × String)) :
    ∀ (db : DB) (c : Nat),
      (discoverFold envOf now units (db, c)).2 =
        c + units.countP (fun u => unitFails (envOf u.1 u.2)) := by
  induction units with
  | nil => intro db c; simp [discoverFold]
  | cons u us ih =>
    intro db c
    show (discoverFold envOf now us (_, _)).2 = _
    rw [ih, List.countP_cons]
    have hstep : (match (discoverUnit (envOf u.1 u.2) now u.1 u.2 db).2 with
        | Except.ok _ => 0 | Except.error _ => 1) =
        (if unitFails (envOf u.1 u.2) = true then 1 else 0) := by
      rw [discoverUnit_snd]
      unfold unitFails
      cases unitResult (envOf u.1 u.2) <;> simp
    rw [hstep]
    by_cases hf : unitFails (envOf u.1 u.2) = true <;> simp [hf] <;> omega

theorem discoverFold_preserve (envOf : String → String → UnitEnv) (now : Nat)
    (units : List (String × String)) :
    ∀ (db : DB) (c : Nat) (k : String × String × String),
      (∃ r ∈ db.instances, rowKey r = k ∧ r.lastSeen = now) →
      ∃ r ∈ (discoverFold envOf now units (db, c)).1.instances,
        rowKey r = k ∧ r.lastSeen = now := by
  induction units with
  | nil => intro db c k h; exact h
  | cons u us ih =>
    intro db c k h
    exact ih _ _ k (key_preserved_discoverUnit (envOf u.1 u.2) now u.1 u.2 db k h)

theorem unitFails_false_elim (env : UnitEnv) (h : unitFails env = false) :
    env.clientOk = true ∧ (∃ l, env.ec2Fetch = Except.ok l) ∧
      ∃ m, env.ssmFetch = Except.ok m := by
  unfold unitFails unitResult at h
  cases hc : env.clientOk with
  | false => rw [hc] at h; simp at h
  | true =>
    rw [hc] at h
    simp only [Bool.not_true, Bool.false_eq_true, if_false] at h
    cases he : env.ec2Fetch with
    | error e => rw [he] at h; simp at h
    | ok l =>
      rw [he] at h
      cases hs : env.ssmFetch with
      | error e => rw [hs] at h; simp at h
      | ok m => exact ⟨rfl, ⟨l, rfl⟩, ⟨m, rfl⟩⟩

theorem discoverFold_establish (envOf : String → String → UnitEnv) (now : Nat)
    (units : List (String × String)) :
    ∀ (db : DB) (c : Nat) (u : String × String), u ∈ units →
      unitFails (envOf u.1 u.2) = false →
      (envOf u.1 u.2).ec2SaveFailAt = none →
      (envOf u.1 u.2).ssmSaveFailAt = none →
      ∀ i ∈ unitWrites (envOf u.1 u.2) u.1 u.2,
        ∃ r ∈ (discoverFold envOf now units (db, c)).1.instances,
          rowKey r = instKey i ∧ r.lastSeen = now := by
  induction units with
  | nil => intro db c u hu; cases hu
  | cons v us ih =>
    intro db c u hu hok hf1 hf2 i hi
    rcases List.mem_cons.mp hu with rfl | hu
    · rcases unitFails_false_elim _ hok with ⟨hcli, ⟨l, he⟩, ⟨m, hs⟩⟩
      exact discoverFold_preserve envOf now us _ _ _
        (keys_established_discoverUnit _ now u.1 u.2 db l m hcli he hs hf1 hf2 i hi)
    · exact ih _ _ u hu hok hf1 hf2 i hi

theorem deleteStale_keeps_now (now ttl : Nat) (db : DB) (k : String × String × String)
    (h : ∃ r ∈ db.instances, rowKey r = k ∧ r.lastSeen = now) :
    ∃ r ∈ (DeleteStale now ttl db).1.instances, rowKey r = k ∧ r.lastSeen = now := by
  rcases h with ⟨r, hrm, hrk, hrl⟩
  refine ⟨r, ?_, hrk, hrl⟩
  show r ∈ db.instances.filter _
  rw [List.mem_filter]
  refine ⟨hrm, ?_⟩
  have : ¬(r.lastSeen < now - ttl) := by
    rw [hrl]
    omega
  simp [this]

theorem discoverInstances_unfold (envOf : String → String → UnitEnv) (now ttl : Nat)
    (profiles regions : List String) (db : DB) (hne : regions ≠ []) :
    DiscoverInstances envOf now ttl profiles regions db =
      ((DeleteStale now ttl
          (discoverFold envOf now (unitList profiles regions) (db, 0)).1).1,
        if (discoverFold envOf now (unitList profiles regions) (db, 0)).2 > 0 then
          Except.error ⟨(discoverFold envOf now (unitList profiles regions) (db, 0)).2⟩
        else Except.ok ()) := by
  unfold DiscoverInstances
  have hreg : (if regions.isEmpty then GetEnabledRegions db else regions) = regions := by
    rw [if_neg]
    intro hc
    exact hne (List.isEmpty_iff.mp hc)
  rw [hreg]
  rfl

/-- C4: a discovery run over given units succeeds exactly when no unit
fails, otherwise it returns one aggregate error whose count equals the
number of failed units; and every record written by a fully successful
unit is still stored afterwards (with `last_seen = now`, so the run's own
stale sweep cannot remove it), regardless of other units' failures. -/
theorem C4_aggregate_error_partial_failure (envOf : String → String → UnitEnv)
    (now ttl : Nat) (profiles regions : List String) (db : DB)
    (hne : regions ≠ []) :
    ((DiscoverInstances envOf now ttl profiles regions db).2 = Except.ok () ↔
      (unitList profiles regions).countP (fun u => unitFails (envOf u.1 u.2)) = 0) ∧
    (∀ e, (DiscoverInstances envOf now ttl profiles regions db).2 = Except.error e →
      e.failedCount =
        (unitList profiles regions).countP (fun u => unitFails (envOf u.1 u.2))) ∧
    (∀ u ∈ unitList profiles regions,
      unitFails (envOf u.1 u.2) = false →
      (envOf u.1 u.2).ec2SaveFailAt = none →
      (envOf u.1 u.2).ssmSaveFailAt = none →
      ∀ i ∈ unitWrites (envOf u.1 u.2) u.1 u.2,
        ∃ r ∈ (DiscoverInstances envOf now ttl profiles regions db).1.instances,
          rowKey r = instKey i ∧ r.lastSeen = now) := by
  rw [discoverInstances_unfold envOf now ttl profiles regions db hne]
  have hcount := discoverFold_count envOf now (unitList profiles regions) db 0
  rw [Nat.zero_add] at hcount
  refine ⟨?_, ?_, ?_⟩
  · by_cases hpos : (discoverFold envOf now (unitList profiles regions) (db, 0)).2 > 0
    · rw [if_pos hpos]
      constructor
      · intro hcontra; cases hcontra
      · intro hz
        rw [hz] at hcount
        omega
    · rw [if_neg hpos]
      exact ⟨fun _ => by omega, fun _ => rfl⟩
  · intro e he
    by_cases hpos : (discoverFold envOf now (unitList profiles regions) (db, 0)).2 > 0
    · rw [if_pos hpos] at he
      cases he
      rw [← hcount]
    · rw [if_neg hpos] at he
      cases he
  · intro u hu hok hf1 hf2 i hi
    exact deleteStale_keeps_now now ttl _ _
      (discoverFold_establish envOf now (unitList profiles regions) db 0 u hu hok hf1 hf2 i hi)

def exEnvOk : UnitEnv :=
  { clientOk := true, accountId := "123"
    ec2Fetch := Except.ok [⟨"i-ok", "running", none, none⟩]
    ec2SaveFailAt := none
    ssmFetch := Except.ok []
    ssmSaveFailAt := none }

def exEnvBad : UnitEnv :=
  { clientOk := true, accountId := "123"
    ec2Fetch := Except.error "throttled"
    ec2SaveFailAt := none
    ssmFetch := Except.ok []
    ssmSaveFailAt := none }

def exEnvOf : String → String → UnitEnv :=
  fun _ rg => if rg = "r1" then exEnvOk else exEnvBad

/-- Witness for C4: with one healthy region and one failing region, the
success condition is the zero-failed-unit condition, and the healthy
unit's record is stored afterwards. -/
theorem C4_aggregate_error_partial_failure_witness :
    ((DiscoverInstances exEnvOf 5 100 ["dev"] ["r1", "r2"] exDBEmpty).2 = Except.ok () ↔
      (unitList ["dev"] ["r1", "r2"]).countP (fun u => unitFails (exEnvOf u.1 u.2)) = 0) ∧
    (∃ r ∈ (DiscoverInstances exEnvOf 5 100 ["dev"] ["r1", "r2"] exDBEmpty).1.instances,
      rowKey r = instKey (ConvertEC2Instance ⟨"i-ok", "running", none, none⟩ "r1" "dev" "123") ∧
      r.lastSeen = 5) := by
  have h := C4_aggregate_error_partial_failure exEnvOf 5 100 ["dev"] ["r1", "r2"]
    exDBEmpty (by decide)
  refine ⟨h.1, ?_⟩
  exact h.2.2 ("dev", "r1") (by decide) (by decide) rfl rfl
    (ConvertEC2Instance ⟨"i-ok", "running", none, none⟩ "r1" "dev" "123") (by decide)

theorem countP_set_add (p : UnitStatus → Bool) (l : List UnitStatus) (i : Nat)
    (a b : UnitStatus) (h : l.get? i = some a) :
    (l.set i b).countP p + (if p a then 1 else 0) =
      l.countP p + (if p b then 1 else 0) := by
  induction l generalizing i with
  | nil => cases h
  | cons c cs ih =>
    cases i with
    | zero =>
      have hca : c = a := by
        rw [List.get?_cons_zero] at h
        exact Option.some_inj.mp h
      subst hca
      show (b :: cs).countP p + _ = _
      rw [List.countP_cons, List.countP_cons]
      omega
    | succ n =>
      have hn : cs.get? n = some a := h
      show (c :: cs.set n b).countP p + _ = _
      rw [List.countP_cons, List.countP_cons]
      have := ih n hn
      omega

theorem schedStep_running (limit : Nat) {s t : SchedState} (h : SchedStep limit s t)
    (hs : runningCount s ≤ limit) : runningCount t ≤ limit := by
  cases h with
  | start i hi =>
    have hadd : (s.units.set i UnitStatus.waiting).countP (fun u => u == UnitStatus.running) + 0 =
        s.units.countP (fun u => u == UnitStatus.running) + 0 :=
      countP_set_add (fun u => u == UnitStatus.running) s.units i
        UnitStatus.pending UnitStatus.waiting hi
    show (s.units.set i UnitStatus.waiting).countP (fun u => u == UnitStatus.running) ≤ limit
    unfold runningCount at hs
    omega
  | acquire i hi hroom =>
    have hadd : (s.units.set i UnitStatus.running).countP (fun u => u == UnitStatus.running) + 0 =
        s.units.countP (fun u => u == UnitStatus.running) + 1 :=
      countP_set_add (fun u => u == UnitStatus.running) s.units i
        UnitStatus.waiting UnitStatus.running hi
    show (s.units.set i UnitStatus.running).countP (fun u => u == UnitStatus.running) ≤ limit
    unfold runningCount at hroom
    omega
  | finishOk i hi =>
    have hadd : (s.units.set i UnitStatus.done).countP (fun u => u == UnitStatus.running) + 1 =
        s.units.countP (fun u => u == UnitStatus.running) + 0 :=
      countP_set_add (fun u => u == UnitStatus.running) s.units i
        UnitStatus.running UnitStatus.done hi
    show (s.units.set i UnitStatus.done).countP (fun u => u == UnitStatus.running) ≤ limit
    unfold runningCount at hs
    omega
  | finishFail i hi =>
    have hadd : (s.units.set i UnitStatus.failed).countP (fun u => u == UnitStatus.running) + 1 =
        s.units.countP (fun u => u == UnitStatus.running) + 0 :=
      countP_set_add (fun u => u == UnitStatus.running) s.units i
        UnitStatus.running UnitStatus.failed hi
    show (s.units.set i UnitStatus.failed).countP (fun u => u == UnitStatus.running) ≤ limit
    unfold runningCount at hs
    omega
  | cancelWait i hi =>
    have hadd : (s.units.set i UnitStatus.failed).countP (fun u => u == UnitStatus.running) + 0 =
        s.units.countP (fun u => u == UnitStatus.running) + 0 :=
      countP_set_add (fun u => u == UnitStatus.running) s.units i
        UnitStatus.waiting UnitStatus.failed hi
    show (s.units.set i UnitStatus.failed).countP (fun u => u == UnitStatus.running) ≤ limit
    unfold runningCount at hs
    omega

/-- C9: in every reachable state of the semaphore-gated fan-out the
number of units holding a slot never exceeds the configured ceiling
(whose default is 5); and a unit blocked in `Acquire` that observes
cancellation can always fail alone — the cancellation step is enabled,
marks exactly that unit failed, and leaves every running unit running. -/
theorem C9_bounded_concurrency (limit n : Nat) (s : SchedState)
    (h : SchedReachable limit n s) :
    runningCount s ≤ limit ∧
    defaultMaxConcurrentSessions = 5 ∧
    (∀ i, s.units.get? i = some UnitStatus.waiting →
      SchedStep limit s ⟨s.units.set i UnitStatus.failed⟩ ∧
      (s.units.set i UnitStatus.failed).get? i = some UnitStatus.failed ∧
      ∀ j, s.units.get? j = some UnitStatus.running →
        (s.units.set i UnitStatus.failed).get? j = some UnitStatus.running) := by
  refine ⟨?_, rfl, ?_⟩
  · induction h with
    | refl =>
      have : runningCount (initState n) = 0 := by
        unfold runningCount initState
        rw [List.countP_eq_zero]
        intro a ha
        rw [List.eq_of_mem_replicate ha]
        decide
      omega
    | tail hsteps hstep ih => exact schedStep_running limit hstep ih
  · intro i hi
    refine ⟨SchedStep.cancelWait s i hi, ?_, ?_⟩
    · have hlt : i < s.units.length := by
        by_contra hge
        rw [List.get?_eq_none.mpr (Nat.le_of_not_lt hge)] at hi
        cases hi
      rw [List.get?_set_eq_of_lt UnitStatus.failed hlt]
    · intro j hj
      have hne : j ≠ i := by
        intro hc
        rw [hc, hi] at hj
        cases hj
      rw [List.get?_set_ne UnitStatus.failed s.units (Ne.symm hne)]
      exact hj

/-- Witness for C9: a concrete reachable two-unit state (one unit
holding a slot, one blocked) respects the default ceiling, and cancelling
the blocked unit leaves the running unit untouched. -/
theorem C9_bounded_concurrency_witness :
    runningCount ⟨[UnitStatus.running, UnitStatus.waiting]⟩ ≤ defaultMaxConcurrentSessions ∧
    ([UnitStatus.running, UnitStatus.waiting].set 1 UnitStatus.failed).get? 0 =
      some UnitStatus.running := by
  have t1 : SchedStep defaultMaxConcurrentSessions (initState 2)
      ⟨[UnitStatus.waiting, UnitStatus.pending]⟩ :=
    SchedStep.start (initState 2) 0 rfl
  have t2 : SchedStep defaultMaxConcurrentSessions
      ⟨[UnitStatus.waiting, UnitStatus.pending]⟩ ⟨[UnitStatus.running, UnitStatus.pending]⟩ :=
    SchedStep.acquire ⟨[UnitStatus.waiting, UnitStatus.pending]⟩ 0 rfl (by decide)
  have t3 : SchedStep defaultMaxConcurrentSessions
      ⟨[UnitStatus.running, UnitStatus.pending]⟩ ⟨[UnitStatus.running, UnitStatus.waiting]⟩ :=
    SchedStep.start ⟨[UnitStatus.running, UnitStatus.pending]⟩ 1 rfl
  have hreach : SchedReachable defaultMaxConcurrentSessions 2
      ⟨[UnitStatus.running, UnitStatus.waiting]⟩ :=
    Relation.ReflTransGen.tail
      (Relation.ReflTransGen.tail (Relation.ReflTransGen.tail Relation.ReflTransGen.refl t1) t2) t3
  have h := C9_bounded_concurrency defaultMaxConcurrentSessions 2
    ⟨[UnitStatus.running, UnitStatus.waiting]⟩ hreach
  exact ⟨h.1, (h.2.2 1 rfl).2.2 0 rfl⟩

end SSM
